import Mathlib

/-!
Shallow embedding of the epub-toolkit publication-analysis pipeline
(johanpoirier/epub-toolkit) and proofs about the specified behaviour.

The JavaScript sources are embedded as pure Lean functions:

* `src/src/utils/index.js`   : path handling, counting, pagination, encryption
                               manifest extraction (`normalizePath`,
                               `makeAbsolutePath`, `estimateTotalCount`,
                               `generatePagination`, `extractEncryptionsData`, ...)
* `src/unnamed/part_002`     : the `Explorer` module (`analyze`, `getSpines`,
                               `getOpfContent`, `getProtectedFiles`, ...)
* `src/src/Explorer.js`      : the older `Explorer` variant whose `decipher`
                               implements `decipherWholeArchive`
* `src/src/ZipEpub.js`       : `getMetadata` with the unique-identifier dedup rule
* `src/src/Lcp.js`           : `getValidUserKey` / `checkValidity`

JavaScript strings are Lean `String`s (lists of characters); machine numbers that
matter are `Nat`/`Int`/`ℚ`; `undefined`/`null` are `Option`; thrown exceptions are
`Except JsError`.  External collaborators (the AES primitive, the cheerio XML
parser applied to free-form text, the NCX/nav table-of-contents parser whose
source file `TocParser.js` is not part of the analysed sources) are oracle
function parameters, universally quantified in every theorem.
-/

namespace EpubToolkit

/-! ## Generic JavaScript-semantics helpers -/

/-- JavaScript object property read (`obj[key]`): first binding wins, missing
property is `undefined`. -/
def jsObjGet {κ β : Type} [DecidableEq κ] : List (κ × β) → κ → Option β
  | [], _ => none
  | (k', v') :: rest, k => if k' = k then some v' else jsObjGet rest k

/-- JavaScript object property write (`obj[key] = v`): replaces the existing
binding in place, otherwise appends (JS objects keep insertion order). -/
def jsObjSet {κ β : Type} [DecidableEq κ] : List (κ × β) → κ → β → List (κ × β)
  | [], k, v => [(k, v)]
  | (k', v') :: rest, k, v =>
    if k' = k then (k, v) :: rest else (k', v') :: jsObjSet rest k v

/-- Array element write at an existing index (`arr[i] = v`); out-of-range
indices are never used by the modelled schedules. -/
def jsSet {α : Type} : List α → Nat → α → List α
  | [], _, _ => []
  | _ :: rest, 0, v => v :: rest
  | a :: rest, n + 1, v => a :: jsSet rest n v

/-- `[a₀, a₁, ...].map((x, i) => run i x)` starting at index `i`. -/
def mapWithIndex {α β : Type} (run : Nat → α → β) : Nat → List α → List β
  | _, [] => []
  | i, a :: rest => run i a :: mapWithIndex run (i + 1) rest

/-- Model of `Promise.all` over per-index tasks executed concurrently: the
results array starts unfilled and each completion (in `schedule` order, an
arbitrary completion order) stores its value at its own index. -/
def completeAllStep {α β : Type} (tasks : List α) (run : Nat → α → β)
    (acc : List (Option β)) (i : Nat) : List (Option β) :=
  match tasks[i]? with
  | some t => jsSet acc i (some (run i t))
  | none => acc

/-- The whole join: the results array starts unfilled and every completion of
`schedule` stores its value; with a schedule covering all indices the result
is the in-order `map`. -/
def completeAllTasks {α β : Type} (tasks : List α) (run : Nat → α → β)
    (schedule : List Nat) : List (Option β) :=
  schedule.foldl (completeAllStep tasks run) (List.replicate tasks.length none)

/-- `String.prototype.split(sep)` on the character list: always returns at
least one (possibly empty) chunk. -/
def splitOnChar (sep : Char) : List Char → List (List Char)
  | [] => [[]]
  | c :: rest =>
    let r := splitOnChar sep rest
    if c = sep then [] :: r
    else
      match r with
      | [] => [[c]]
      | h :: t => (c :: h) :: t

/-- `Array.prototype.join(sep)` on character-list chunks. -/
def joinChar (sep : Char) : List (List Char) → List Char
  | [] => []
  | [h] => h
  | h :: rest => h ++ sep :: joinChar sep rest

/-- `\w` character class of the JS regexes used by `getBasePath`. -/
def isWordChar (c : Char) : Bool := c.isAlphanum || c = '_'

/-- Hexadecimal digit value, for `decodeURIComponent`. -/
def hexVal (c : Char) : Option Nat :=
  if '0' ≤ c ∧ c ≤ '9' then some (c.toNat - '0'.toNat)
  else if 'a' ≤ c ∧ c ≤ 'f' then some (c.toNat - 'a'.toNat + 10)
  else if 'A' ≤ c ∧ c ≤ 'F' then some (c.toNat - 'A'.toNat + 10)
  else none

/-- `decodeURIComponent` restricted to single-byte escapes (the multi-byte
UTF-8 recombination performed by the JS runtime is outside the modelled
character range; malformed escapes are kept verbatim). -/
def percentDecode : List Char → List Char
  | '%' :: a :: b :: rest =>
    match hexVal a, hexVal b with
    | some x, some y => Char.ofNat (16 * x + y) :: percentDecode rest
    | _, _ => '%' :: percentDecode (a :: b :: rest)
  | c :: rest => c :: percentDecode rest
  | [] => []

/-- String-level `decodeURIComponent`. -/
def decodeURIComponent (s : String) : String := String.mk (percentDecode s.data)

/-- `parseInt(s, 10)`: optional sign followed by leading decimal digits;
`none` models `NaN`. -/
def jsParseInt (s : String) : Option Int :=
  let cs := s.data.dropWhile (fun c => c = ' ')
  let (neg, cs) :=
    match cs with
    | '-' :: rest => (true, rest)
    | '+' :: rest => (false, rest)
    | _ => (false, cs)
  let digits := cs.takeWhile Char.isDigit
  if digits.isEmpty then none
  else
    let n : Nat := digits.foldl (fun acc c => 10 * acc + (c.toNat - '0'.toNat)) 0
    some (if neg then -(n : Int) else (n : Int))

/-- JS truthiness of an optional string attribute (`undefined` and `""` are
falsy). -/
def jsTruthyStr : Option String → Bool
  | none => false
  | some s => !(s == "")

/-! ## Path handling (`src/src/utils/index.js`) -/

/-- One step of the `reduce` callback inside `normalizePath`:
`..` drops the accumulator's last `/`-segment, `.` keeps it, any other part is
appended with a separating `/` unless the accumulator is empty. -/
def normStepChars (path part : List Char) : List Char :=
  if part = ['.', '.'] then joinChar '/' ((splitOnChar '/' path).dropLast)
  else if part = ['.'] then path
  else path ++ (if path.length = 0 then [] else ['/']) ++ part

/-- `normalizePath` on the character list.  Note the source uses `reduce`
WITHOUT an initial value, so the first `/`-segment becomes the initial
accumulator and is never itself interpreted as `.` or `..`. -/
def normalizePathChars (l : List Char) : List Char :=
  match splitOnChar '/' l with
  | [] => l
  | p :: rest => rest.foldl normStepChars p

/-- `normalizePath` from `src/src/utils/index.js`. -/
def normalizePath (path : String) : String := String.mk (normalizePathChars path.data)

/-- `makeAbsolutePath` on the character list (`path[0] === '/'` check). -/
def makeAbsolutePathChars (l : List Char) : List Char :=
  if l.head? = some '/' then l else '/' :: l

/-- `makeAbsolutePath` from `src/src/utils/index.js`. -/
def makeAbsolutePath (path : String) : String :=
  String.mk (makeAbsolutePathChars path.data)

/-- `getBasePath`: match of `/^(\w*)\/\w*\.opf$/`, returning the captured
directory followed by `/`, else the empty string. -/
def getBasePath (contentFilePath : String) : String :=
  match splitOnChar '/' contentFilePath.data with
  | [a, b] =>
    if a.all isWordChar ∧ b.reverse.take 4 = ['f', 'p', 'o', '.']
        ∧ (b.reverse.drop 4).all isWordChar then
      String.mk (a ++ ['/'])
    else ""
  | _ => ""

/-! ## Data model -/

/-- Failure modes surfaced by the embedded code.  `fileNotFound` is the
`FileNotFoundError` thrown by `getFile`; `typeError` is the JavaScript
`TypeError` raised when an `undefined` value is used where an object is
expected; `malformedContainerError` is declared by the specification's error
taxonomy (§7) but nothing in the sources ever constructs it. -/
inductive JsError where
  | fileNotFound
  | typeError
  | malformedContainerError
  deriving Repr, DecidableEq

/-- The parsed `META-INF/container.xml` as consumed by the pipeline:
`document('rootfile').attr('full-path')` (`none` when no root-file element or
attribute exists). -/
structure ContainerDoc where
  rootfileFullPath : Option String
  deriving Repr, DecidableEq

/-- A `<metadata>` child element of the package document, with the attributes
read by `extractMetadataEntry`. -/
structure XmlMetaElement where
  tagName : String
  property : Option String
  name : Option String
  content : Option String
  idAttr : Option String
  text : String
  deriving Repr, DecidableEq

/-- A `<manifest><item>` element. -/
structure ManifestItem where
  id : String
  href : String
  mediaType : Option String
  properties : Option String
  deriving Repr, DecidableEq

/-- A `<spine><itemref>` element. -/
structure ItemRef where
  idref : String
  properties : Option String
  deriving Repr, DecidableEq

/-- The parsed package document (`.opf`) as consumed by the pipeline. -/
structure OpfDoc where
  uniqueIdentifier : Option String
  metadataEntries : List XmlMetaElement
  manifest : List ManifestItem
  spineItemRefs : List ItemRef
  deriving Repr, DecidableEq

/-- The fields of the parsed LCP license the code reads: `license.id` and
`license.encryption.user_key.key_check`. -/
structure License where
  id : String
  keyCheck : String
  deriving Repr, DecidableEq

/-- An `<EncryptedData>` entry of `META-INF/encryption.xml`, with the
selections made by `extractEncryptionsData` / `getProtectedFiles`:
`retrievalMethodType` is `some t` when a `KeyInfo > RetrievalMethod` element is
present with `Type` attribute `t`, and `resourceXmlns` is `some x` when a
`KeyInfo > resource` element is present with `xmlns` attribute `x`. -/
structure EncryptedData where
  uri : String
  algorithm : Option String
  compressionMethodAttr : Option String
  originalLengthAttr : Option String
  retrievalMethodType : Option String
  resourceXmlns : Option String
  deriving Repr, DecidableEq

/-- The protection descriptor built per encrypted resource.
`compressionMethod`/`originalLength` are `none` when `parseInt` yields `NaN`;
`type` is `none` for the `null` sentinel of `extractEncryptionsData` and
`some "unknown"` for the sentinel of the `Explorer` variants. -/
structure ProtectionDescriptor where
  algorithm : Option String
  compressionMethod : Option Int
  originalLength : Option Int
  type : Option String
  deriving Repr, DecidableEq

/-- The per-item content counts attached to an analyzed spine item. -/
structure ElementsCount where
  characterCount : Nat
  imageCount : Nat
  videoCount : Nat
  totalCount : Nat
  deriving Repr, DecidableEq

/-- `EMPTY_ELEMENTS_COUNT` from `src/src/utils/index.js`. -/
def EMPTY_ELEMENTS_COUNT : ElementsCount :=
  { characterCount := 0, imageCount := 0, videoCount := 0, totalCount := 0 }

mutual
/-- A DOM node as produced by the external XML/HTML parser: an element with a
tag name, an optional `id` attribute and children, or a text node.  (`Node`
and `NodeList` are mutually inductive so that the document walks below are
structurally recursive and computable by the kernel.) -/
inductive Node where
  | element (tagName : String) (idAttr : Option String) (children : NodeList)
  | text (data : String)
  deriving Repr
/-- A list of DOM nodes (the `children`/root sequence). -/
inductive NodeList where
  | nil
  | cons (head : Node) (tail : NodeList)
  deriving Repr
end

/-- A parsed document: its root node list. -/
abbrev XmlDoc := NodeList

/-- A table-of-contents node as produced by `parseToc` and consumed by
`findTocItemsInSpine`, `computeTocItemsSizes` and `generatePagination`. -/
inductive TocItem where
  | mk (label : String) (href : String) (level : Nat)
       (positionInSpine : ℚ) (percentageOfSpine : ℚ) (items : List TocItem)
  deriving Repr

def TocItem.label : TocItem → String
  | .mk l _ _ _ _ _ => l

def TocItem.href : TocItem → String
  | .mk _ h _ _ _ _ => h

def TocItem.level : TocItem → Nat
  | .mk _ _ lv _ _ _ => lv

def TocItem.positionInSpine : TocItem → ℚ
  | .mk _ _ _ p _ _ => p

def TocItem.percentageOfSpine : TocItem → ℚ
  | .mk _ _ _ _ p _ => p

def TocItem.items : TocItem → List TocItem
  | .mk _ _ _ _ _ its => its

/-- A spine entry built by `getSpines`: the resolution fields are set when the
`<itemref>` is resolved against the manifest, `cfi`/`protection` by the
follow-up loop, and `counts` (the JS `characterCount`/`imageCount`/
`videoCount`/`totalCount` own-properties added by `Object.assign`) by the
analysis step — `none` models their pre-analysis `undefined` state. -/
structure SpineItem where
  idref : String
  href : String
  path : String
  spread : Option String
  cfi : String
  protection : Option ProtectionDescriptor
  counts : Option ElementsCount
  deriving Repr, DecidableEq

/-- `spine.totalCount` as read by `generatePagination` (always set after
analysis; an `undefined` read would propagate `NaN` in JS and never happens on
the modelled paths). -/
def SpineItem.totalCount (s : SpineItem) : Nat :=
  (s.counts.getD EMPTY_ELEMENTS_COUNT).totalCount

/-- Archive entry contents at the granularity the pipeline consumes them:
control files are carried in parsed form (the lenient cheerio parser never
fails; parsing an entry as a document kind it does not have yields a document
with empty selections), spine documents as parsed DOMs, everything else as raw
bytes. -/
inductive ZipEntry where
  | containerXml (doc : ContainerDoc)
  | opfXml (doc : OpfDoc)
  | encryptionXml (entries : List EncryptedData)
  | licenseJson (license : License)
  | xhtml (doc : XmlDoc)
  | raw (data : List Nat)
  deriving Repr

/-- An opened JSZip archive: entry name to entry, insertion-ordered. -/
abbrev Zip := List (String × ZipEntry)

/-- The flat metadata mapping (JS object keyed by the extracted metadata key,
which itself can be `undefined`). -/
abbrev MetaMap := List (Option String × Option String)

/-- A pagination element produced by `generatePagination`. -/
structure PaginationElement where
  items : List TocItem
  label : String
  percentageOfBook : ℚ
  positionInBook : ℚ
  deriving Repr

/-- The pagination result of `generatePagination`. -/
structure Pagination where
  totalCount : Nat
  maxLevel : Nat
  elements : List PaginationElement
  deriving Repr

/-! ## DOM content counting (`src/src/utils/index.js`) -/

mutual

/-- `domContent('body *')` on a single node: the node itself when below a
`body`, followed by its matching descendants, in document order. -/
def bodyDescendantsNode (inBody : Bool) : Node → List Node
  | .element t i c =>
    (if inBody then [Node.element t i c] else [])
      ++ bodyDescendantElements (inBody || t == "body") c
  | .text _ => []

/-- `domContent('body *').toArray()`: every element having a `body` ancestor,
in document order (an element precedes its descendants). -/
def bodyDescendantElements (inBody : Bool) : NodeList → List Node
  | .nil => []
  | .cons n rest => bodyDescendantsNode inBody n ++ bodyDescendantElements inBody rest

end

/-- The fold behind `directTextContent`. -/
def childTextJoin (acc : String) : NodeList → String
  | .nil => acc
  | .cons (.text d) rest => childTextJoin (acc ++ d) rest
  | .cons _ rest => childTextJoin acc rest

/-- `el.childNodes.filter(n => n.nodeType === TEXT_NODE).map(n => n.data).join('')`. -/
def directTextContent : Node → String
  | .element _ _ children => childTextJoin "" children
  | .text _ => ""

/-- `getCharacterCount`: sum of the direct text content lengths. -/
def getCharacterCount (elements : List Node) : Nat :=
  elements.foldl (fun total el => (directTextContent el).length + total) 0

/-- `getCharacterCountInDom`. -/
def getCharacterCountInDom (domContent : XmlDoc) : Nat :=
  getCharacterCount (bodyDescendantElements false domContent)

mutual

/-- `'img, svg image'` count contributed by a single node. -/
def countImgAndSvgImageNode (inSvg : Bool) : Node → Nat
  | .element t _ c =>
    (if t == "img" then 1 else 0)
      + (if t == "image" && inSvg then 1 else 0)
      + countImgAndSvgImage (inSvg || t == "svg") c
  | .text _ => 0

/-- `domContent('img, svg image').length`: `img` elements anywhere plus
`image` elements with an `svg` ancestor. -/
def countImgAndSvgImage (inSvg : Bool) : NodeList → Nat
  | .nil => 0
  | .cons n rest => countImgAndSvgImageNode inSvg n + countImgAndSvgImage inSvg rest

end

/-- `getImageCountInDom`. -/
def getImageCountInDom (domContent : XmlDoc) : Nat :=
  countImgAndSvgImage false domContent

mutual

/-- `'video'` count contributed by a single node. -/
def countVideoElementsNode : Node → Nat
  | .element t _ c => (if t == "video" then 1 else 0) + countVideoElements c
  | .text _ => 0

/-- `domContent('video').length`. -/
def countVideoElements : NodeList → Nat
  | .nil => 0
  | .cons n rest => countVideoElementsNode n + countVideoElements rest

end

/-- `getVideoCountInDom`. -/
def getVideoCountInDom (domContent : XmlDoc) : Nat :=
  countVideoElements domContent

/-- `estimateTotalCount` from `src/src/utils/index.js`: attaches
`totalCount = characterCount + 300*imageCount + 300*videoCount`. -/
def estimateTotalCount (elementsCounts : ElementsCount) : ElementsCount :=
  { elementsCounts with
    totalCount := elementsCounts.characterCount
      + 300 * elementsCounts.imageCount + 300 * elementsCounts.videoCount }

/-- `getSpineElementsCountInDom`: gathers the three counts and estimates the
total (its `catch` branch returning `EMPTY_ELEMENTS_COUNT` is unreachable for
the pure counting functions). -/
def getSpineElementsCountInDom (domContent : XmlDoc) : ElementsCount :=
  estimateTotalCount
    { characterCount := getCharacterCountInDom domContent
      imageCount := getImageCountInDom domContent
      videoCount := getVideoCountInDom domContent
      totalCount := 0 }

/-! ## Metadata extraction -/

/-- `extractMetadataEntry` (identical in every variant): for `<meta>` prefer
the truthy `property` attribute with the element text, falling back to the
`name`/`content` attribute pair; for any other element the key is the tag name
and the value its text. -/
def extractMetadataEntry (entry : XmlMetaElement) : Option String × Option String :=
  if entry.tagName = "meta" then
    if jsTruthyStr entry.property then (entry.property, some entry.text)
    else (entry.name, entry.content)
  else (some entry.tagName, some entry.text)

/-! ## Lcp (`src/src/Lcp.js`)

The AES decryption performed by forge is the oracle
`dec : userKey → ciphertext → Option plaintext`; a `none` result models the
exception path of `checkValidity`'s `try/catch`. -/

namespace Lcp

/-- `Lcp.checkValidity`: decrypt the license's key-check value with the user
key and compare the result with the license id (`false` on a decryption
error). -/
def checkValidity (dec : String → String → Option String)
    (userKey : String) (license : License) : Bool :=
  match dec userKey license.keyCheck with
  | some userKeyCheckDecrypted => license.id == userKeyCheckDecrypted
  | none => false

/-- `Lcp.getValidUserKey`: `undefined` for an empty license or key list,
otherwise every valid key is collected in order and the last one is popped. -/
def getValidUserKey (dec : String → String → Option String)
    (license : Option License) (keys : List String) : Option String :=
  match license with
  | none => none
  | some lic =>
    if keys.isEmpty then none
    else (keys.filter (fun key => checkValidity dec key lic)).getLast?

/-- The specification's description of `getValidUserKey` (§4.3
`findValidKey`): the last candidate, in list order, whose decryption of the
key-check value equals the license id; `undefined` when the license or the
candidate list is empty or no candidate is valid. -/
def getValidUserKeySpec (dec : String → String → Option String)
    (license : Option License) (keys : List String) : Option String :=
  match license with
  | none => none
  | some lic => keys.reverse.find? (fun key => checkValidity dec key lic)

end Lcp

/-! ## Encryption manifest extraction -/

/-- `LCP_PROTECTION_TYPE` from the Explorer modules. -/
def LCP_PROTECTION_TYPE : String := "http://readium.org/2014/01/lcp#EncryptedContentKey"

/-- The per-`EncryptedData` body of `extractEncryptionsData`
(`src/src/utils/index.js`, sentinel `let type = null`): `type` is first set
from a present `KeyInfo > RetrievalMethod` element and then OVERWRITTEN by a
present `KeyInfo > resource` element's `xmlns`. -/
def extractEncryptionsDataEntry (e : EncryptedData) : ProtectionDescriptor :=
  let type0 : Option String := none
  let type1 := match e.retrievalMethodType with
    | some t => some t
    | none => type0
  let type2 := match e.resourceXmlns with
    | some x => some x
    | none => type1
  { algorithm := e.algorithm
    compressionMethod := match e.compressionMethodAttr with
      | some s => jsParseInt s
      | none => none
    originalLength := match e.originalLengthAttr with
      | some s => jsParseInt s
      | none => none
    type := type2 }

/-- The per-`EncryptedData` body of `getProtectedFiles` in the Explorer
modules (`src/src/Explorer.js:586-607`, `src/unnamed/part_002:582-602`);
identical to `extractEncryptionsDataEntry` except that the initial sentinel is
`PROTECTION_METHOD.UNKNOWN`. -/
def getProtectedFilesEntry (e : EncryptedData) : ProtectionDescriptor :=
  let type0 : Option String := some "unknown"
  let type1 := match e.retrievalMethodType with
    | some t => some t
    | none => type0
  let type2 := match e.resourceXmlns with
    | some x => some x
    | none => type1
  { algorithm := e.algorithm
    compressionMethod := match e.compressionMethodAttr with
      | some s => jsParseInt s
      | none => none
    originalLength := match e.originalLengthAttr with
      | some s => jsParseInt s
      | none => none
    type := type2 }

/-! ## Archive access -/

/-- `getFile`: look the normalized path up in the archive, throwing
`FileNotFoundError` when absent. -/
def getFileE (zip : Zip) (path : String) : Except JsError ZipEntry :=
  match jsObjGet zip (normalizePath path) with
  | none => Except.error JsError.fileNotFound
  | some zipFile => Except.ok zipFile

/-- `parseXml` applied where a container document is expected; the lenient
parser turns any other content into a document with no `rootfile` element. -/
def parseAsContainer : ZipEntry → ContainerDoc
  | .containerXml doc => doc
  | _ => { rootfileFullPath := none }

/-- `parseXml` applied where a package document is expected. -/
def parseAsOpf : ZipEntry → OpfDoc
  | .opfXml doc => doc
  | _ => { uniqueIdentifier := none, metadataEntries := [], manifest := [], spineItemRefs := [] }

/-- `getOpfFilePath`: `document('rootfile').attr('full-path')`. -/
def getOpfFilePath (document : ContainerDoc) : Option String :=
  document.rootfileFullPath

namespace Explorer

/-! The `Explorer` module of `src/unnamed/part_002` (analysis pipeline). -/

/-- `getLcpLicense`: read and JSON-parse `META-INF/license.lcpl`, `null` on
any failure. -/
def getLcpLicense (zip : Zip) : Option License :=
  match getFileE zip "META-INF/license.lcpl" with
  | .ok (.licenseJson license) => some license
  | _ => none

/-- `getOpfContent` (`src/unnamed/part_002:293-310`): read and parse
`META-INF/container.xml`, extract the package-document path, derive the base
path and read/parse the package document.  When no root-file element exists,
`getOpfFilePath` yields `undefined` and the subsequent
`getBasePath(undefined)` call (`undefined.match`) throws a JS `TypeError`. -/
def getOpfContent (zip : Zip) : Except JsError (String × OpfDoc) := do
  let containerEntry ← getFileE zip "META-INF/container.xml"
  let document := parseAsContainer containerEntry
  match getOpfFilePath document with
  | none => Except.error JsError.typeError
  | some opfFilePath =>
    let basePath := getBasePath opfFilePath
    let opfEntry ← getFileE zip opfFilePath
    Except.ok (basePath, parseAsOpf opfEntry)

/-- `getMetadata` (`src/unnamed/part_002:479-491`): fold the metadata children
into a flat object, later entries overwriting earlier ones. -/
def getMetadata (zip : Zip) : Except JsError MetaMap := do
  let (_, opf) ← getOpfContent zip
  Except.ok (opf.metadataEntries.foldl
    (fun fixedMetadata entry =>
      let data := extractMetadataEntry entry
      jsObjSet fixedMetadata data.1 data.2)
    [])

/-- `getProtectedFiles` (`src/unnamed/part_002:571-610`): missing
`META-INF/encryption.xml` gives an empty mapping; otherwise each entry is
keyed by `makeAbsolutePath(decodeURIComponent(uri))`. -/
def getProtectedFiles (zip : Zip) : List (String × ProtectionDescriptor) :=
  match getFileE zip "META-INF/encryption.xml" with
  | .error _ => []
  | .ok (.encryptionXml entries) =>
    entries.foldl
      (fun resources e =>
        jsObjSet resources (makeAbsolutePath (decodeURIComponent e.uri))
          (getProtectedFilesEntry e))
      []
  | .ok _ => []

/-- `getToc` (`src/unnamed/part_002:516-535`): locate the NCX (EPUB2) or nav
(EPUB3) manifest item, read the file and hand it to `parseToc`; any failure is
caught and yields `null`.  `parseToc` lives in `TocParser.js`, which is not
among the analysed sources, so it is the oracle `parseTocFn`. -/
def getToc (zip : Zip)
    (parseTocFn : String → ZipEntry → Option (List TocItem)) :
    Option (List TocItem) :=
  match getOpfContent zip with
  | .error _ => none
  | .ok (basePath, opf) =>
    let tocElement := opf.manifest.find?
      (fun it => it.mediaType == some "application/x-dtbncx+xml")
    let tocElement := match tocElement with
      | some it => some it
      | none => opf.manifest.find? (fun it => it.properties == some "nav")
    match tocElement with
    | none => none
    | some tocItem =>
      match getFileE zip (basePath ++ tocItem.href) with
      | .error _ => none
      | .ok tocFile => parseTocFn basePath tocFile

end Explorer

/-! ## Table of contents search and sizing -/

/-- `item1.href.split('#')[0]`. -/
def hrefWithoutHash (href : String) : String :=
  match splitOnChar '#' href.data with
  | [] => href
  | h :: _ => String.mk h

/-- `inSameSpine`. -/
def inSameSpine (item1 item2 : TocItem) : Bool :=
  hrefWithoutHash item1.href == hrefWithoutHash item2.href

mutual

/-- `findTocItemsInSpine`: the items of the current level whose `href` starts
with the spine `href` (`indexOf(href) === 0`), followed by the matches found
recursively inside every item's children, in order. -/
def findTocItemsInSpine (items : List TocItem) (href : String) : List TocItem :=
  items.filter (fun item => item.href.startsWith href)
    ++ findTocItemsInSpineChildren items href
termination_by (sizeOf items, 1)

/-- The `forEach`-and-`concat` recursion of `findTocItemsInSpine`. -/
def findTocItemsInSpineChildren : List TocItem → String → List TocItem
  | [], _ => []
  | TocItem.mk _ _ _ _ _ childItems :: rest, href =>
    findTocItemsInSpine childItems href ++ findTocItemsInSpineChildren rest href
termination_by items _ => (sizeOf items, 0)

end

/-- `computeTocItemsSizes` inner loop: sibling leaf sizes are position
differences within the same spine item, the last sibling inherits
`baseSize + basePosition`, negative sizes are clamped to zero, and children
are processed with the item's own position/size.  Only `percentageOfSpine`
(and children) change. -/
def computeTocItemsSizesGo (basePosition baseSize : ℚ) : List TocItem → List TocItem
  | [] => []
  | TocItem.mk label href level positionInSpine _ children :: rest =>
    let item := TocItem.mk label href level positionInSpine 0 children
    let sizeInSpine : ℚ :=
      match rest with
      | nextItem :: _ =>
        if inSameSpine item nextItem then nextItem.positionInSpine - positionInSpine
        else baseSize
      | [] => baseSize + basePosition - positionInSpine
    let sizeInSpine := if sizeInSpine < 0 then 0 else sizeInSpine
    TocItem.mk label href level positionInSpine (100 * sizeInSpine)
        (computeTocItemsSizesGo positionInSpine sizeInSpine children)
      :: computeTocItemsSizesGo basePosition baseSize rest

/-- `computeTocItemsSizes` with its default arguments; `isEmpty(items)` (a
`null` table of contents) returns immediately. -/
def computeTocItemsSizes : Option (List TocItem) → Option (List TocItem)
  | none => none
  | some items => some (computeTocItemsSizesGo 0 1 items)

/-! ## Pagination (`generatePagination`, `src/src/utils/index.js:246-281`) -/

/-- `spine.href.split('.')[0]`. -/
def hrefBeforeDot (href : String) : String :=
  match splitOnChar '.' href.data with
  | [] => href
  | h :: _ => String.mk h

/-- The `while` loop of `generatePagination`, carrying the accumulated
elements (also consulted for the previous element's label), the cumulative
percentage and the maximum TOC level. -/
def generatePaginationGo (tocItems : Option (List TocItem)) (totalCount : Nat) :
    List SpineItem → List PaginationElement → ℚ → Nat →
    List PaginationElement × Nat
  | [], elements, _, maxLevel => (elements, maxLevel)
  | spine :: rest, elements, combinedSize, maxLevel =>
    let items := findTocItemsInSpine (tocItems.getD []) spine.href
    let maxLevel := items.foldl
      (fun mx item => if item.level > mx then item.level else mx) maxLevel
    let label :=
      match items with
      | [] =>
        match elements.getLast? with
        | none => hrefBeforeDot spine.href
        | some prev => prev.label
      | item :: _ => item.label
    let element : PaginationElement :=
      { items := items
        label := label
        percentageOfBook := 100 * (spine.totalCount : ℚ) / (totalCount : ℚ)
        positionInBook := combinedSize }
    generatePaginationGo tocItems totalCount rest (elements ++ [element])
      (combinedSize + element.percentageOfBook) maxLevel

/-- `generatePagination`: `totalCount` is the sum of the spine items'
`totalCount`s; each element carries its book-relative percentage and the
running position.  (`findTocItemsInSpine(tocItems, ...)` guards a `null` toc
with `items || []`.) -/
def generatePagination (tocItems : Option (List TocItem)) (spines : List SpineItem) :
    Pagination :=
  let totalCount := spines.foldl (fun total spine => total + spine.totalCount) 0
  let result := generatePaginationGo tocItems totalCount spines [] 0 1
  { totalCount := totalCount, maxLevel := result.2, elements := result.1 }

namespace Explorer

/-! ## Spine resolution and analysis (`src/unnamed/part_002:320-378`) -/

/-- One iteration of the `opf('spine > itemref').each` loop of `getSpines`:
resolve the `idref` against the manifest (first `item[id=idref]` match),
yielding `none` for an unresolvable entry (silently skipped), and record
`path = makeAbsolutePath(basePath + href)` and the optional `spread`
property. -/
def resolveSpineRef (basePath : String) (manifest : List ManifestItem)
    (ref : ItemRef) : Option SpineItem :=
  match manifest.find? (fun item => item.id == ref.idref) with
  | none => none
  | some item =>
    some { idref := ref.idref
           href := item.href
           path := makeAbsolutePath (basePath ++ item.href)
           spread := if jsTruthyStr ref.properties then ref.properties else none
           cfi := ""
           protection := none
           counts := none }

/-- The whole `each` loop: `validSpines` in document order. -/
def resolveValidSpines (basePath : String) (opf : OpfDoc) : List SpineItem :=
  opf.spineItemRefs.filterMap (resolveSpineRef basePath opf.manifest)

/-- The indexed `for` loop of `getSpines`: attach `cfi = /6/(2+2i)` and the
protection descriptor looked up by absolute path. -/
def attachCfiAndProtection (protectedFiles : List (String × ProtectionDescriptor)) :
    Nat → List SpineItem → List SpineItem
  | _, [] => []
  | spineIndex, spine :: rest =>
    { spine with
      cfi := "/6/" ++ toString (2 + spineIndex * 2)
      protection := jsObjGet protectedFiles spine.path }
      :: attachCfiAndProtection protectedFiles (spineIndex + 1) rest

/-- `enrichTocItems` returns the spine unchanged; its side effects set
`cfi`/`positionInSpine` on the matching TOC items, state outside the spine
value (no analysed property depends on them, and the modelled pipeline keeps
the pre-enrichment TOC). -/
def enrichTocItems (_items : Option (List TocItem)) (spine : SpineItem)
    (_spineDomContent : XmlDoc) : SpineItem :=
  spine

/-- `analyzeSpine` (`src/unnamed/part_002:367-378`) = `analyzeSpineItem`
(`src/src/utils/zipTools.js:221-232`).  The per-item fetch/decipher/parse
pipeline (`getFileContent` + `parseXml`, external I/O, AES and cheerio) is the
`outcome` oracle: on success the counts of the parsed document are attached
with `Object.assign`, on any failure the `catch` branch attaches
`EMPTY_ELEMENTS_COUNT` and the item itself is returned — never an error. -/
def analyzeSpine (toc : Option (List TocItem)) (spine : SpineItem)
    (outcome : Except JsError XmlDoc) : SpineItem :=
  match outcome with
  | .ok domContent =>
    enrichTocItems toc
      { spine with counts := some (getSpineElementsCountInDom domContent) }
      domContent
  | .error _ => { spine with counts := some EMPTY_ELEMENTS_COUNT }

/-- `getSpines` (`src/unnamed/part_002:320-365`).  `fetch i` is the oracle for
the i-th item's document pipeline; the `all(promises)` join preserves input
order (`mapWithIndex`), which theorem `c1_spine_order_preserved` relates to an
arbitrary completion order via `completeAllTasks`. -/
def getSpines (zip : Zip) (license : Option License) (keys : List String)
    (toc : Option (List TocItem)) (shouldAnalyzeSpines : Bool)
    (dec : String → String → Option String)
    (fetch : Nat → Except JsError XmlDoc) : Except JsError (List SpineItem) := do
  let license := match license with
    | none => getLcpLicense zip
    | some l => some l
  let (basePath, opf) ← getOpfContent zip
  let validSpines := resolveValidSpines basePath opf
  let protectedFiles := getProtectedFiles zip
  let validSpines := attachCfiAndProtection protectedFiles 0 validSpines
  if shouldAnalyzeSpines then
    let _userKey := Lcp.getValidUserKey dec license keys
    Except.ok (mapWithIndex (fun i spine => analyzeSpine toc spine (fetch i)) 0 validSpines)
  else
    Except.ok validSpines

/-- The analysis result object of `Explorer.analyze`. -/
structure AnalyzeData where
  license : Option License
  metadata : MetaMap
  toc : Option (List TocItem)
  spines : List SpineItem
  pagination : Pagination

/-- `Explorer.analyze` (`src/unnamed/part_002:85-102`): license (fallback to
the archive's), metadata (fatal on failure), toc (never fatal), spines
(fatal only through `getOpfContent`), toc sizes and pagination.
`isEpubFixedLayout(data.metadata.meta)` reads the `meta` member of the flat
metadata map, which is a string or `undefined`, never an object carrying
`rendition:layout`, so the check always evaluates falsy here. -/
def analyze (zip : Zip) (license : Option License) (userKeys : List String)
    (dec : String → String → Option String)
    (fetch : Nat → Except JsError XmlDoc)
    (parseTocFn : String → ZipEntry → Option (List TocItem)) :
    Except JsError AnalyzeData := do
  let dataLicense := match license with
    | none => getLcpLicense zip
    | some l => some l
  let metadata ← getMetadata zip
  let isFixedLayout := false
  let toc := getToc zip parseTocFn
  let spines ← getSpines zip license userKeys toc (!isFixedLayout) dec fetch
  let toc := computeTocItemsSizes toc
  let pagination := generatePagination toc spines
  Except.ok
    { license := dataLicense
      metadata := metadata
      toc := toc
      spines := spines
      pagination := pagination }

end Explorer

namespace ZipEpub

/-! `getMetadata` from `src/src/ZipEpub.js:188-204` (and
`src/unnamed/part_003:179-195`): duplicate handling for `dc:identifier`. -/

/-- One step of the `metadata.each` fold: an entry is skipped iff the key is
already present with a truthy value, the key is `dc:identifier` and the
entry's `id` attribute differs from the package's declared
`unique-identifier`; otherwise it (over)writes its key. -/
def metadataStep (uniqueIdentifier : Option String)
    (fixedMetadata : MetaMap) (entry : XmlMetaElement) : MetaMap :=
  let data := extractMetadataEntry entry
  if (match jsObjGet fixedMetadata data.1 with
        | some existing => jsTruthyStr existing
        | none => false)
      && data.1 == some "dc:identifier"
      && !(entry.idAttr == uniqueIdentifier) then
    fixedMetadata
  else jsObjSet fixedMetadata data.1 data.2

/-- The `metadata.each` fold of `ZipEpub.getMetadata`. -/
def metadataFold (uniqueIdentifier : Option String)
    (entries : List XmlMetaElement) : MetaMap :=
  entries.foldl (metadataStep uniqueIdentifier) []

/-- `ZipEpub.getMetadata`: read the package document and fold its metadata
children with the unique-identifier dedup rule. -/
def getMetadata (zip : Zip) : Except JsError MetaMap := do
  let (_, opf) ← Explorer.getOpfContent zip
  Except.ok (metadataFold opf.uniqueIdentifier opf.metadataEntries)

end ZipEpub

namespace ExplorerJs

/-! The `Explorer` variant of `src/src/Explorer.js`; its `decipher` is the
public `decipherWholeArchive` operation. -/

/-- `getLcpLicense` (`src/src/Explorer.js:281-286`): read and JSON-parse
`META-INF/license.lcpl`.  Unlike the `part_002` variant there is no catch: a
missing file or a parse failure (`JSON.parse` throws) rejects. -/
def getLcpLicense (zip : Zip) : Except JsError License :=
  match getFileE zip "META-INF/license.lcpl" with
  | .ok (.licenseJson license) => Except.ok license
  | .ok _ => Except.error JsError.typeError
  | .error e => Except.error e

/-- `getProtectedFiles` (`src/src/Explorer.js:572-614`): like the
`part_002` variant but the mapping is keyed by `decodeURIComponent(uri)`
WITHOUT `makeAbsolutePath`, matching the archive's entry names. -/
def getProtectedFiles (zip : Zip) : List (String × ProtectionDescriptor) :=
  match getFileE zip "META-INF/encryption.xml" with
  | .error _ => []
  | .ok (.encryptionXml entries) =>
    entries.foldl
      (fun resources e =>
        jsObjSet resources (decodeURIComponent e.uri) (getProtectedFilesEntry e))
      []
  | .ok _ => []

/-- An output entry of `decipher`: either the original archive entry copied
verbatim or the deciphered bytes of a protected entry. -/
inductive DecipheredEntry where
  | original (e : ZipEntry)
  | deciphered (data : List Nat)

/-- The per-entry body of `decipher`'s `Object.keys(zip.files).map`: a file
whose protection descriptor has the LCP key-retrieval type is read
(`getFile`) and handed to `Lcp.decipherFile` (the oracle for the absent `Lcp`
module variant); any failure is caught and yields `null` (`none`); any other
file is carried over verbatim. -/
def decipherEntry (zip : Zip) (protectedFileMap : List (String × ProtectionDescriptor))
    (license : License) (userKey : String)
    (decipherFile : ZipEntry → ProtectionDescriptor → License → String →
      Except JsError (List Nat))
    (filePath : String) (entry : ZipEntry) : Option (String × DecipheredEntry) :=
  match jsObjGet protectedFileMap filePath with
  | some protection =>
    if protection.type = some LCP_PROTECTION_TYPE then
      match getFileE zip filePath with
      | .ok data =>
        match decipherFile data protection license userKey with
        | .ok d => some (filePath, DecipheredEntry.deciphered d)
        | .error _ => none
      | .error _ => none
    else some (filePath, DecipheredEntry.original entry)
  | none => some (filePath, DecipheredEntry.original entry)

/-- The second pass of `decipher`: drop `null`s and the encryption manifest,
keep everything else. -/
def addToZip (file : Option (String × DecipheredEntry)) :
    Option (String × DecipheredEntry) :=
  match file with
  | none => none
  | some (path, data) =>
    if path = "META-INF/encryption.xml" then none
    else some (path, data)

/-- `Explorer.decipher` (`src/src/Explorer.js:202-241`), the
`decipherWholeArchive` operation: resolve the license
(`license = license || await getLcpLicense(zip)`; a missing license document
propagates), build the protected-file map, map every archive entry through
`decipherEntry` and repackage with `addToZip`. -/
def decipher (zip : Zip) (license : Option License) (userKey : String)
    (decipherFile : ZipEntry → ProtectionDescriptor → License → String →
      Except JsError (List Nat)) :
    Except JsError (List (String × DecipheredEntry)) := do
  let license ← match license with
    | some l => Except.ok l
    | none => getLcpLicense zip
  let protectedFileMap := getProtectedFiles zip
  let epubFiles : List (Option (String × DecipheredEntry)) :=
    zip.map (fun pe => decipherEntry zip protectedFileMap license userKey decipherFile pe.1 pe.2)
  Except.ok (epubFiles.filterMap addToZip)

end ExplorerJs

/-! # Theorems

Helper lemmas first, then one theorem per claim (with witnesses and
counterexamples where required). -/

/-! ## Helper lemmas about the JS helpers -/

theorem jsObjGet_jsObjSet_self {κ β : Type} [DecidableEq κ]
    (m : List (κ × β)) (k : κ) (v : β) :
    jsObjGet (jsObjSet m k v) k = some v := by
  induction m with
  | nil => simp [jsObjGet, jsObjSet]
  | cons kv rest ih =>
    obtain ⟨k', v'⟩ := kv
    by_cases h : k' = k
    · simp [jsObjGet, jsObjSet, h]
    · simp [jsObjGet, jsObjSet, h, ih]

theorem jsObjGet_jsObjSet_ne {κ β : Type} [DecidableEq κ]
    (m : List (κ × β)) (k k' : κ) (v : β) (h : k' ≠ k) :
    jsObjGet (jsObjSet m k v) k' = jsObjGet m k' := by
  induction m with
  | nil => simp [jsObjGet, jsObjSet, Ne.symm h]
  | cons kv rest ih =>
    obtain ⟨k₀, v₀⟩ := kv
    by_cases h₀ : k₀ = k
    · subst h₀
      simp [jsObjGet, jsObjSet, Ne.symm h]
    · simp only [jsObjSet, if_neg h₀, jsObjGet]
      by_cases h₁ : k₀ = k'
      · simp [h₁]
      · simp [h₁, ih]

theorem jsObjGet_of_mem_nodup {β : Type} (zip : List (String × β))
    (hnd : (zip.map Prod.fst).Nodup) (p : String) (e : β)
    (hmem : (p, e) ∈ zip) : jsObjGet zip p = some e := by
  induction zip with
  | nil => cases hmem
  | cons qf rest ih =>
    obtain ⟨q, f⟩ := qf
    simp only [List.map_cons, List.nodup_cons] at hnd
    rcases List.mem_cons.mp hmem with h | h
    · obtain ⟨hp, he⟩ := Prod.mk.injEq .. ▸ h
      simp [jsObjGet, hp.symm, he]
    · by_cases hq : q = p
      · exfalso
        apply hnd.1
        subst hq
        exact List.mem_map.mpr ⟨(q, e), h, rfl⟩
      · simpa [jsObjGet, hq] using ih hnd.2 h

theorem length_jsSet {α : Type} (l : List α) (n : Nat) (v : α) :
    (jsSet l n v).length = l.length := by
  induction l generalizing n with
  | nil => rfl
  | cons a rest ih =>
    cases n with
    | zero => rfl
    | succ m => simp [jsSet, ih]

theorem getElem?_jsSet_self {α : Type} (l : List α) (n : Nat) (v : α)
    (h : n < l.length) : (jsSet l n v)[n]? = some v := by
  induction l generalizing n with
  | nil => cases h
  | cons a rest ih =>
    cases n with
    | zero => simp [jsSet]
    | succ m => simpa [jsSet] using ih m (by simpa using h)

theorem getElem?_jsSet_ne {α : Type} (l : List α) (n k : Nat) (v : α)
    (h : k ≠ n) : (jsSet l n v)[k]? = l[k]? := by
  induction l generalizing n k with
  | nil => rfl
  | cons a rest ih =>
    cases n with
    | zero =>
      cases k with
      | zero => exact absurd rfl h
      | succ j => simp [jsSet]
    | succ m =>
      cases k with
      | zero => simp [jsSet]
      | succ j => simpa [jsSet] using ih m j (fun hh => h (by omega))

theorem length_mapWithIndex {α β : Type} (run : Nat → α → β) (i : Nat) (l : List α) :
    (mapWithIndex run i l).length = l.length := by
  induction l generalizing i with
  | nil => rfl
  | cons a rest ih => simp [mapWithIndex, ih]

theorem getElem?_mapWithIndex {α β : Type} (run : Nat → α → β) (i : Nat)
    (l : List α) (k : Nat) :
    (mapWithIndex run i l)[k]? = l[k]?.map (run (i + k)) := by
  induction l generalizing i k with
  | nil => simp [mapWithIndex]
  | cons a rest ih =>
    cases k with
    | zero => simp [mapWithIndex]
    | succ j =>
      have := ih (i + 1) j
      simpa [mapWithIndex, Nat.add_assoc, Nat.add_comm 1 j] using this

/-! ## C2: total-count formula -/

/-- C2: for every analyzed spine item — whether its document pipeline
succeeded or failed — the attached `totalCount` equals
`characterCount + 300*imageCount + 300*videoCount` exactly, in integer
arithmetic.  (`analyzeSpine` of `src/unnamed/part_002` is
`analyzeSpineItem` of `src/src/utils/zipTools.js`.) -/
theorem c2_total_count_formula (toc : Option (List TocItem)) (spine : SpineItem)
    (outcome : Except JsError XmlDoc) (c : ElementsCount)
    (h : (Explorer.analyzeSpine toc spine outcome).counts = some c) :
    c.totalCount = c.characterCount + 300 * c.imageCount + 300 * c.videoCount := by
  cases outcome with
  | ok domContent =>
    have hc : c = getSpineElementsCountInDom domContent := by
      simpa [Explorer.analyzeSpine, Explorer.enrichTocItems] using h.symm
    subst hc
    simp [getSpineElementsCountInDom, estimateTotalCount]
  | error err =>
    have hc : c = EMPTY_ELEMENTS_COUNT := by
      simpa [Explorer.analyzeSpine] using h.symm
    subst hc
    rfl

/-- A concrete spine item for the C2 witness. -/
def c2Spine : SpineItem :=
  { idref := "ch1", href := "chapter1.xhtml", path := "/OEBPS/chapter1.xhtml",
    spread := none, cfi := "/6/2", protection := none, counts := none }

/-- A concrete parsed chapter for the C2 witness: one paragraph of five
characters and one image. -/
def c2Dom : XmlDoc :=
  .cons (.element "html" none
    (.cons (.element "body" none
      (.cons (.element "p" none (.cons (.text "hello") .nil))
        (.cons (.element "img" none .nil) .nil))) .nil)) .nil

theorem c2_total_count_formula_witness :
    (Explorer.analyzeSpine none c2Spine (Except.ok c2Dom)).counts
        = some { characterCount := 5, imageCount := 1, videoCount := 0, totalCount := 305 }
      ∧ (305 : Nat) = 5 + 300 * 1 + 300 * 0 :=
  ⟨by decide, c2_total_count_formula none c2Spine (Except.ok c2Dom)
    { characterCount := 5, imageCount := 1, videoCount := 0, totalCount := 305 } (by decide)⟩

/-! ## C3: last valid user key -/

theorem filter_getLast_eq_reverse_find {α : Type} (p : α → Bool) (l : List α) :
    (l.filter p).getLast? = l.reverse.find? p := by
  induction l with
  | nil => rfl
  | cons a t ih =>
    rw [List.reverse_cons, List.find?_append, ← ih]
    by_cases hpa : p a = true
    · rw [List.filter_cons_of_pos hpa, List.getLast?_cons]
      cases hfl : (t.filter p).getLast? with
      | none => simp [List.find?_cons, hpa, hfl, Option.or]
      | some x => simp [List.find?_cons, hpa, hfl, Option.or]
    · rw [List.filter_cons_of_neg hpa]
      simp [List.find?_cons, hpa]

/-- C3: `Lcp.getValidUserKey` returns exactly the last candidate, in list
order, whose decryption of the license's key-check value equals the license
id (`getValidUserKeySpec`), and `undefined` when the license is empty, the
candidate list is empty, or no candidate is valid. -/
theorem c3_getValidUserKey_last_valid (dec : String → String → Option String)
    (license : Option License) (keys : List String) :
    Lcp.getValidUserKey dec license keys = Lcp.getValidUserKeySpec dec license keys := by
  cases license with
  | none => rfl
  | some lic =>
    cases keys with
    | nil => rfl
    | cons k ks =>
      show (List.filter _ (k :: ks)).getLast? = _
      rw [filter_getLast_eq_reverse_find]
      rfl

/-! ## C4: protection-descriptor type resolution -/

/-- A C4 input whose `EncryptedData` entry carries both a `RetrievalMethod`
and a `resource` key-info element, with distinct URIs. -/
def c4Entry : EncryptedData :=
  { uri := "OEBPS/chapter1.xhtml"
    algorithm := some "http://www.w3.org/2001/04/xmlenc#aes256-cbc"
    compressionMethodAttr := some "8"
    originalLengthAttr := some "1000"
    retrievalMethodType := some "http://readium.org/2014/01/lcp#EncryptedContentKey"
    resourceXmlns := some "http://ns.adobe.com/adept" }

/-- C4 counterexample: when both `KeyInfo > RetrievalMethod` and
`KeyInfo > resource` are present, the resulting `type` is the `resource`
namespace URI, not the `RetrievalMethod` URI — the claimed preference order
is inverted in the code. -/
theorem c4_counterexample :
    (extractEncryptionsDataEntry c4Entry).type = some "http://ns.adobe.com/adept"
      ∧ (extractEncryptionsDataEntry c4Entry).type
          ≠ some "http://readium.org/2014/01/lcp#EncryptedContentKey" := by
  exact ⟨rfl, by decide⟩

/-- C4 (amended): the `type` of the protection descriptor built by
`extractEncryptionsData` is resolved by the preference order
resource-xmlns over RetrievalMethod-URI over the null sentinel — in
particular the `resource` URI wins when both elements are present — and never
depends on the `EncryptionMethod` algorithm URI. -/
theorem c4_type_resolution (e : EncryptedData) :
    (extractEncryptionsDataEntry e).type = e.resourceXmlns.or e.retrievalMethodType := by
  cases hr : e.resourceXmlns <;> cases hm : e.retrievalMethodType <;>
    simp [extractEncryptionsDataEntry, hr, hm, Option.or]

/-! ## C10: normalizePath / makeAbsolutePath interplay -/

theorem splitOnChar_ne_nil (sep : Char) (l : List Char) : splitOnChar sep l ≠ [] := by
  induction l with
  | nil => simp [splitOnChar]
  | cons c rest ih =>
    simp only [splitOnChar]
    by_cases h : c = sep
    · simp [h]
    · simp only [if_neg h]
      cases hr : splitOnChar sep rest <;> simp

theorem splitOnChar_cons_sep (sep : Char) (l : List Char) :
    splitOnChar sep (sep :: l) = [] :: splitOnChar sep l := by
  simp [splitOnChar]

theorem joinChar_splitOnChar (sep : Char) (l : List Char) :
    joinChar sep (splitOnChar sep l) = l := by
  induction l with
  | nil => rfl
  | cons c rest ih =>
    by_cases h : c = sep
    · subst h
      rw [splitOnChar_cons_sep]
      cases hr : splitOnChar c rest with
      | nil => exact absurd hr (splitOnChar_ne_nil c rest)
      | cons h' t' =>
        rw [hr] at ih
        simpa [joinChar] using ih
    · simp only [splitOnChar, if_neg h]
      cases hr : splitOnChar sep rest with
      | nil => exact absurd hr (splitOnChar_ne_nil sep rest)
      | cons h' t' =>
        rw [hr] at ih
        cases t' with
        | nil => simpa [joinChar] using ih
        | cons u us => simpa [joinChar] using ih

theorem normStep_nil_plain (p0 : List Char) (h1 : p0 ≠ ['.']) (h2 : p0 ≠ ['.', '.']) :
    normStepChars [] p0 = p0 := by
  simp [normStepChars, h1, h2]

theorem normalizePathChars_cons_slash (l : List Char)
    (h1 : (splitOnChar '/' l).head? ≠ some ['.'])
    (h2 : (splitOnChar '/' l).head? ≠ some ['.', '.']) :
    normalizePathChars ('/' :: l) = normalizePathChars l := by
  unfold normalizePathChars
  rw [splitOnChar_cons_sep]
  cases hs : splitOnChar '/' l with
  | nil => exact absurd hs (splitOnChar_ne_nil _ _)
  | cons p0 rest =>
    rw [hs] at h1 h2
    have hp1 : p0 ≠ ['.'] := fun hh => h1 (by rw [hh]; rfl)
    have hp2 : p0 ≠ ['.', '.'] := fun hh => h2 (by rw [hh]; rfl)
    simp only [List.foldl_cons]
    rw [normStep_nil_plain p0 hp1 hp2]

theorem foldl_normStep_plain (parts : List (List Char)) :
    ∀ acc, acc ≠ [] →
    (∀ s ∈ parts, s ≠ [] ∧ s ≠ ['.'] ∧ s ≠ ['.', '.']) →
    parts.foldl normStepChars acc = joinChar '/' (acc :: parts) := by
  induction parts with
  | nil => intro acc _ _; rfl
  | cons q rest ih =>
    intro acc hacc hall
    obtain ⟨hq0, hq1, hq2⟩ := hall q (List.mem_cons_self q rest)
    have hlen : ¬acc.length = 0 := fun hh => hacc (List.length_eq_zero.mp hh)
    have hstep : normStepChars acc q = acc ++ '/' :: q := by
      simp [normStepChars, hq1, hq2, hlen]
    rw [List.foldl_cons, hstep,
      ih (acc ++ '/' :: q) (by simp) (fun s hs => hall s (List.mem_cons_of_mem _ hs))]
    cases rest with
    | nil => simp [joinChar]
    | cons r rs => simp [joinChar]

/-- C10 counterexample: the path `".."` does not begin with `/`, yet
`normalizePath(makeAbsolutePath(".."))` is `""` while `normalizePath("..")`
is `".."` — the claimed identity fails because `reduce` without an initial
value never interprets a leading `..`/`.` segment. -/
theorem c10_counterexample :
    "..".data.head? ≠ some '/'
      ∧ normalizePath (makeAbsolutePath "..") ≠ normalizePath ".."
      ∧ normalizePath (makeAbsolutePath "..") = ""
      ∧ normalizePath ".." = ".." :=
  ⟨by decide, by decide, by decide, by decide⟩

/-- C10 (amended): for every path `p` that does not begin with `/` and whose
FIRST `/`-segment is neither `.` nor `..`,
`normalizePath (makeAbsolutePath p) = normalizePath p`, so the absolute and
slash-less forms resolve to the same archive entry in `getFile`; moreover for
every `p` whose `/`-segments are all non-empty and none `.`/`..`,
`normalizePath p = p`. -/
theorem c10_normalize_absolute (p : String)
    (h1 : p.data.head? ≠ some '/')
    (h2 : (splitOnChar '/' p.data).head? ≠ some ['.'])
    (h3 : (splitOnChar '/' p.data).head? ≠ some ['.', '.']) :
    (normalizePath (makeAbsolutePath p) = normalizePath p
      ∧ ∀ zip : Zip, getFileE zip (makeAbsolutePath p) = getFileE zip p)
    ∧ ((∀ s ∈ splitOnChar '/' p.data, s ≠ [] ∧ s ≠ ['.'] ∧ s ≠ ['.', '.']) →
        normalizePath p = p) := by
  have habs : (makeAbsolutePath p).data = '/' :: p.data := by
    simp [makeAbsolutePath, makeAbsolutePathChars, h1]
  have hmain : normalizePath (makeAbsolutePath p) = normalizePath p := by
    unfold normalizePath
    rw [habs, normalizePathChars_cons_slash p.data h2 h3]
  refine ⟨⟨hmain, ?_⟩, ?_⟩
  · intro zip
    unfold getFileE
    rw [hmain]
  · intro hall
    unfold normalizePath normalizePathChars
    cases hs : splitOnChar '/' p.data with
    | nil => exact absurd hs (splitOnChar_ne_nil _ _)
    | cons p0 rest =>
      have hp0 := hall p0 (by rw [hs]; exact List.mem_cons_self p0 rest)
      have hrest : ∀ s ∈ rest, s ≠ [] ∧ s ≠ ['.'] ∧ s ≠ ['.', '.'] :=
        fun s hsm => hall s (by rw [hs]; exact List.mem_cons_of_mem _ hsm)
      show String.mk (rest.foldl normStepChars p0) = p
      rw [foldl_normStep_plain rest p0 hp0.1 hrest, ← hs, joinChar_splitOnChar]

theorem c10_normalize_absolute_witness :
    ("a/b.xhtml".data.head? ≠ some '/'
      ∧ (splitOnChar '/' "a/b.xhtml".data).head? ≠ some ['.']
      ∧ (splitOnChar '/' "a/b.xhtml".data).head? ≠ some ['.', '.'])
    ∧ ((normalizePath (makeAbsolutePath "a/b.xhtml") = normalizePath "a/b.xhtml"
        ∧ ∀ zip : Zip, getFileE zip (makeAbsolutePath "a/b.xhtml") = getFileE zip "a/b.xhtml")
      ∧ ((∀ s ∈ splitOnChar '/' "a/b.xhtml".data, s ≠ [] ∧ s ≠ ['.'] ∧ s ≠ ['.', '.']) →
          normalizePath "a/b.xhtml" = "a/b.xhtml")) :=
  ⟨⟨by decide, by decide, by decide⟩,
    c10_normalize_absolute "a/b.xhtml" (by decide) (by decide) (by decide)⟩

/-! ## C7: duplicate `dc:identifier` resolution -/

theorem dc_lookup_stable (uid : Option String) (X : String) (hX : X ≠ "")
    (entries : List XmlMetaElement) :
    ∀ m : MetaMap, jsObjGet m (some "dc:identifier") = some (some X) →
    (∀ e ∈ entries, (extractMetadataEntry e).1 = some "dc:identifier" →
      e.idAttr = uid → (extractMetadataEntry e).2 = some X) →
    jsObjGet (entries.foldl (ZipEpub.metadataStep uid) m) (some "dc:identifier")
      = some (some X) := by
  induction entries with
  | nil => intro m hm _; simpa using hm
  | cons e t ih =>
    intro m hm h2
    rw [List.foldl_cons]
    refine ih (ZipEpub.metadataStep uid m e) ?_
      (fun e' he' => h2 e' (List.mem_cons_of_mem _ he'))
    simp only [ZipEpub.metadataStep]
    by_cases hkey : (extractMetadataEntry e).1 = some "dc:identifier"
    · have hie : (X == "") = false := beq_eq_false_iff_ne.mpr hX
      have hmatch : (match jsObjGet m (extractMetadataEntry e).1 with
          | some existing => jsTruthyStr existing
          | none => false) = true := by
        rw [hkey, hm]
        simp [jsTruthyStr, hie]
      have hB : ((extractMetadataEntry e).1 == some "dc:identifier") = true :=
        beq_iff_eq.mpr hkey
      by_cases hid : e.idAttr = uid
      · have hD : (e.idAttr == uid) = true := beq_iff_eq.mpr hid
        have hval := h2 e (List.mem_cons_self e t) hkey hid
        rw [if_neg (by rw [hD]; simp), hkey, hval]
        exact jsObjGet_jsObjSet_self m (some "dc:identifier") (some X)
      · have hD : (e.idAttr == uid) = false := by
          simp [hid]
        rw [if_pos (by rw [hmatch, hB, hD]; rfl)]
        exact hm
    · have hne : some "dc:identifier" ≠ (extractMetadataEntry e).1 :=
        fun hh => hkey hh.symm
      by_cases hcond : ((match jsObjGet m (extractMetadataEntry e).1 with
            | some existing => jsTruthyStr existing
            | none => false)
          && ((extractMetadataEntry e).1 == some "dc:identifier")
          && !(e.idAttr == uid)) = true
      · rw [if_pos hcond]; exact hm
      · rw [if_neg hcond]
        rw [jsObjGet_jsObjSet_ne m (extractMetadataEntry e).1
          (some "dc:identifier") (extractMetadataEntry e).2 hne]
        exact hm

theorem dc_lookup_final (uid : Option String) (X : String) (hX : X ≠ "")
    (entries : List XmlMetaElement) :
    ∀ m : MetaMap,
    (∀ e ∈ entries, (extractMetadataEntry e).1 = some "dc:identifier" →
      e.idAttr = uid → (extractMetadataEntry e).2 = some X) →
    (∃ e ∈ entries, (extractMetadataEntry e).1 = some "dc:identifier" ∧ e.idAttr = uid) →
    jsObjGet (entries.foldl (ZipEpub.metadataStep uid) m) (some "dc:identifier")
      = some (some X) := by
  induction entries with
  | nil =>
    intro m _ h3
    obtain ⟨e, he, _⟩ := h3
    cases he
  | cons e t ih =>
    intro m h2 h3
    rw [List.foldl_cons]
    by_cases he : (extractMetadataEntry e).1 = some "dc:identifier" ∧ e.idAttr = uid
    · have hval := h2 e (List.mem_cons_self e t) he.1 he.2
      have hwrite : jsObjGet (ZipEpub.metadataStep uid m e) (some "dc:identifier")
          = some (some X) := by
        simp only [ZipEpub.metadataStep]
        have hD : (e.idAttr == uid) = true := beq_iff_eq.mpr he.2
        rw [if_neg (by rw [hD]; simp), he.1, hval]
        exact jsObjGet_jsObjSet_self m (some "dc:identifier") (some X)
      exact dc_lookup_stable uid X hX t (ZipEpub.metadataStep uid m e) hwrite
        (fun e' he' => h2 e' (List.mem_cons_of_mem _ he'))
    · obtain ⟨e', he', hk', hi'⟩ := h3
      rcases List.mem_cons.mp he' with rfl | hmem
      · exact absurd ⟨hk', hi'⟩ he
      · exact ih (ZipEpub.metadataStep uid m e)
          (fun e₂ he₂ => h2 e₂ (List.mem_cons_of_mem _ he₂)) ⟨e', hmem, hk', hi'⟩

/-- The `dc:identifier` element carrying the package's declared unique
identifier, valued `"urn:isbn:123"`. -/
def c7UidEntry : XmlMetaElement :=
  { tagName := "dc:identifier", property := none, name := none, content := none,
    idAttr := some "uid", text := "urn:isbn:123" }

/-- The second `dc:identifier` element, whose `id` is not the package's
unique identifier, valued `"other-id"`. -/
def c7OtherEntry : XmlMetaElement :=
  { tagName := "dc:identifier", property := none, name := none, content := none,
    idAttr := some "other", text := "other-id" }

/-- C7: for every package document whose `dc:identifier` metadata elements
are the two scenario entries — one with `id` equal to the declared
`unique-identifier="uid"` valued `"urn:isbn:123"`, one with a different `id`
valued `"other-id"` — in any order and among arbitrary other metadata,
`ZipEpub.getMetadata` maps `dc:identifier` to `"urn:isbn:123"`: only the
entry marked as the package's unique identifier wins. -/
theorem c7_unique_identifier_wins (zip : Zip) (basePath : String) (opf : OpfDoc)
    (hopf : Explorer.getOpfContent zip = Except.ok (basePath, opf))
    (huid : opf.uniqueIdentifier = some "uid")
    (hmem : c7UidEntry ∈ opf.metadataEntries)
    (honly : ∀ e ∈ opf.metadataEntries,
      (extractMetadataEntry e).1 = some "dc:identifier" →
      e = c7UidEntry ∨ e = c7OtherEntry) :
    ∃ metadata, ZipEpub.getMetadata zip = Except.ok metadata
      ∧ jsObjGet metadata (some "dc:identifier") = some (some "urn:isbn:123") := by
  refine ⟨ZipEpub.metadataFold opf.uniqueIdentifier opf.metadataEntries, ?_, ?_⟩
  · unfold ZipEpub.getMetadata
    rw [hopf]
    rfl
  · rw [ZipEpub.metadataFold, huid]
    refine dc_lookup_final (some "uid") "urn:isbn:123" (by decide)
      opf.metadataEntries [] ?_ ?_
    · intro e he hk hi
      rcases honly e he hk with rfl | rfl
      · rfl
      · exact absurd hi (by decide)
    · exact ⟨c7UidEntry, hmem, by decide, rfl⟩

/-- The concrete C7 package document, with the non-unique entry FIRST. -/
def c7Opf : OpfDoc :=
  { uniqueIdentifier := some "uid"
    metadataEntries := [c7OtherEntry, c7UidEntry]
    manifest := []
    spineItemRefs := [] }

/-- The concrete C7 archive. -/
def c7Zip : Zip :=
  [("META-INF/container.xml", ZipEntry.containerXml { rootfileFullPath := some "OEBPS/package.opf" }),
   ("OEBPS/package.opf", ZipEntry.opfXml c7Opf)]

theorem c7_unique_identifier_wins_witness :
    (Explorer.getOpfContent c7Zip = Except.ok ("OEBPS/", c7Opf)
      ∧ c7Opf.uniqueIdentifier = some "uid"
      ∧ c7UidEntry ∈ c7Opf.metadataEntries
      ∧ ∀ e ∈ c7Opf.metadataEntries,
          (extractMetadataEntry e).1 = some "dc:identifier" →
          e = c7UidEntry ∨ e = c7OtherEntry)
    ∧ ∃ metadata, ZipEpub.getMetadata c7Zip = Except.ok metadata
        ∧ jsObjGet metadata (some "dc:identifier") = some (some "urn:isbn:123") :=
  ⟨⟨rfl, rfl, by decide, by decide⟩,
    c7_unique_identifier_wins c7Zip "OEBPS/" c7Opf rfl rfl (by decide) (by decide)⟩

/-! ## C8: pagination percentages sum to 100 -/

theorem generatePaginationGo_percentages (tocItems : Option (List TocItem))
    (T : Nat) (spines : List SpineItem) :
    ∀ (elements : List PaginationElement) (cs : ℚ) (ml : Nat),
    ((generatePaginationGo tocItems T spines elements cs ml).1).map
        PaginationElement.percentageOfBook
      = elements.map PaginationElement.percentageOfBook
        ++ spines.map (fun s => 100 * (s.totalCount : ℚ) / (T : ℚ)) := by
  induction spines with
  | nil => intro elements cs ml; simp [generatePaginationGo]
  | cons sp rest ih =>
    intro elements cs ml
    simp only [generatePaginationGo]
    rw [ih]
    simp

theorem sum_map_percentages (T : Nat) (l : List SpineItem) :
    (l.map (fun s => 100 * (s.totalCount : ℚ) / (T : ℚ))).sum
      = 100 * ((l.map SpineItem.totalCount).sum : ℚ) / (T : ℚ) := by
  induction l with
  | nil => simp
  | cons s rest ih =>
    simp only [List.map_cons, List.sum_cons, ih]
    push_cast
    ring

theorem foldl_totalCount_eq_sum (spines : List SpineItem) :
    spines.foldl (fun total spine => total + spine.totalCount) 0
      = (spines.map SpineItem.totalCount).sum := by
  suffices h : ∀ init : Nat, spines.foldl (fun total spine => total + spine.totalCount) init
      = init + (spines.map SpineItem.totalCount).sum by
    simpa using h 0
  induction spines with
  | nil => intro init; simp
  | cons s rest ih =>
    intro init
    simp only [List.foldl_cons, List.map_cons, List.sum_cons, ih]
    omega

/-- C8: whenever the spine items' `totalCount`s sum to a positive
`totalCount`, `generatePagination` assigns each element
`percentageOfBook = 100 * spine.totalCount / totalCount` and the percentages
sum to exactly 100 in rational arithmetic. -/
theorem c8_pagination_sums_to_100 (tocItems : Option (List TocItem))
    (spines : List SpineItem)
    (h : 0 < spines.foldl (fun total spine => total + spine.totalCount) 0) :
    ((generatePagination tocItems spines).elements.map
        PaginationElement.percentageOfBook).sum = 100
      ∧ (generatePagination tocItems spines).elements.map
          PaginationElement.percentageOfBook
        = spines.map (fun s => 100 * (s.totalCount : ℚ)
            / ((spines.foldl (fun total spine => total + spine.totalCount) 0 : Nat) : ℚ)) := by
  have hmap : (generatePagination tocItems spines).elements.map
      PaginationElement.percentageOfBook
      = spines.map (fun s => 100 * (s.totalCount : ℚ)
          / ((spines.foldl (fun total spine => total + spine.totalCount) 0 : Nat) : ℚ)) := by
    unfold generatePagination
    simpa using generatePaginationGo_percentages tocItems
      (spines.foldl (fun total spine => total + spine.totalCount) 0) spines [] 0 1
  refine ⟨?_, hmap⟩
  rw [hmap, sum_map_percentages, ← foldl_totalCount_eq_sum]
  have hne : ((spines.foldl (fun total spine => total + spine.totalCount) 0 : Nat) : ℚ) ≠ 0 :=
    Nat.cast_ne_zero.mpr h.ne'
  field_simp

/-- Concrete spines for the C8 witness: total counts 100 and 300. -/
def c8Spines : List SpineItem :=
  [{ idref := "a", href := "a.xhtml", path := "/a.xhtml", spread := none,
     cfi := "/6/2", protection := none,
     counts := some { characterCount := 100, imageCount := 0, videoCount := 0, totalCount := 100 } },
   { idref := "b", href := "b.xhtml", path := "/b.xhtml", spread := none,
     cfi := "/6/4", protection := none,
     counts := some { characterCount := 0, imageCount := 1, videoCount := 0, totalCount := 300 } }]

theorem c8_pagination_sums_to_100_witness :
    0 < c8Spines.foldl (fun total spine => total + spine.totalCount) 0
      ∧ (((generatePagination none c8Spines).elements.map
            PaginationElement.percentageOfBook).sum = 100
        ∧ (generatePagination none c8Spines).elements.map
            PaginationElement.percentageOfBook
          = c8Spines.map (fun s => 100 * (s.totalCount : ℚ)
              / ((c8Spines.foldl (fun total spine => total + spine.totalCount) 0 : Nat) : ℚ))) :=
  ⟨by decide, c8_pagination_sums_to_100 none c8Spines (by decide)⟩

/-! ## C1: spine order preservation under concurrent analysis -/

theorem resolveSpineRef_idref (basePath : String) (manifest : List ManifestItem)
    (ref : ItemRef)
    (h : (manifest.find? (fun item => item.id == ref.idref)).isSome) :
    ∃ s, Explorer.resolveSpineRef basePath manifest ref = some s
      ∧ s.idref = ref.idref := by
  unfold Explorer.resolveSpineRef
  cases hf : manifest.find? (fun item => item.id == ref.idref) with
  | none => rw [hf] at h; cases h
  | some item => exact ⟨_, rfl, rfl⟩

theorem resolveValidSpines_map_idref (basePath : String) (manifest : List ManifestItem)
    (refs : List ItemRef)
    (hvalid : ∀ ref ∈ refs, (manifest.find? (fun item => item.id == ref.idref)).isSome) :
    (refs.filterMap (Explorer.resolveSpineRef basePath manifest)).map SpineItem.idref
      = refs.map ItemRef.idref := by
  induction refs with
  | nil => rfl
  | cons r t ih =>
    obtain ⟨s, hs, hid⟩ :=
      resolveSpineRef_idref basePath manifest r (hvalid r (List.mem_cons_self r t))
    rw [List.filterMap_cons, hs]
    simp [hid, ih (fun ref hr => hvalid ref (List.mem_cons_of_mem _ hr))]

theorem attachCfiAndProtection_map_idref
    (protectedFiles : List (String × ProtectionDescriptor)) :
    ∀ (i : Nat) (l : List SpineItem),
    (Explorer.attachCfiAndProtection protectedFiles i l).map SpineItem.idref
      = l.map SpineItem.idref := by
  intro i l
  induction l generalizing i with
  | nil => rfl
  | cons s rest ih => simp [Explorer.attachCfiAndProtection, ih]

theorem analyzeSpine_idref (toc : Option (List TocItem)) (s : SpineItem)
    (o : Except JsError XmlDoc) :
    (Explorer.analyzeSpine toc s o).idref = s.idref := by
  cases o <;> rfl

theorem mapWithIndex_analyzeSpine_map_idref (toc : Option (List TocItem))
    (fetch : Nat → Except JsError XmlDoc) :
    ∀ (i : Nat) (l : List SpineItem),
    (mapWithIndex (fun j spine => Explorer.analyzeSpine toc spine (fetch j)) i l).map
        SpineItem.idref
      = l.map SpineItem.idref := by
  intro i l
  induction l generalizing i with
  | nil => rfl
  | cons s rest ih => simp [mapWithIndex, analyzeSpine_idref, ih]

theorem completeAllStep_length {α β : Type} (tasks : List α) (run : Nat → α → β)
    (acc : List (Option β)) (j : Nat) :
    (completeAllStep tasks run acc j).length = acc.length := by
  unfold completeAllStep
  cases hj : tasks[j]? with
  | none => rfl
  | some t => exact length_jsSet acc j (some (run j t))

theorem completeAllTasks_foldl_getElem {α β : Type} (tasks : List α)
    (run : Nat → α → β) (schedule : List Nat) :
    ∀ (acc : List (Option β)) (k : Nat), acc.length = tasks.length →
    (schedule.foldl (completeAllStep tasks run) acc)[k]?
      = if k ∈ schedule ∧ k < tasks.length
        then (tasks[k]?).map (fun t => some (run k t))
        else acc[k]? := by
  induction schedule with
  | nil => intro acc k hlen; simp
  | cons j rest ih =>
    intro acc k hlen
    rw [List.foldl_cons,
      ih (completeAllStep tasks run acc j) k
        ((completeAllStep_length tasks run acc j).trans hlen)]
    by_cases hk : k < tasks.length
    · by_cases hkr : k ∈ rest
      · simp [hkr, hk, List.mem_cons]
      · by_cases hkj : k = j
        · subst hkj
          have hsome : tasks[k]? = some tasks[k] := List.getElem?_eq_getElem hk
          have hstep : (completeAllStep tasks run acc k)[k]? = some (some (run k tasks[k])) := by
            unfold completeAllStep
            rw [hsome]
            exact getElem?_jsSet_self acc k (some (run k tasks[k])) (hlen ▸ hk)
          simp [hkr, hk, List.mem_cons, hstep, hsome]
        · have hstep : (completeAllStep tasks run acc j)[k]? = acc[k]? := by
            unfold completeAllStep
            cases hj : tasks[j]? with
            | none => rfl
            | some t => exact getElem?_jsSet_ne acc j k (some (run j t)) hkj
          simp [hkr, hkj, List.mem_cons, hk, hstep]
    · have hstep : (completeAllStep tasks run acc j)[k]? = acc[k]? := by
        unfold completeAllStep
        cases hj : tasks[j]? with
        | none => rfl
        | some t =>
          by_cases hkj : k = j
          · subst hkj
            rw [List.getElem?_eq_none (by omega)] at hj
            cases hj
          · exact getElem?_jsSet_ne acc j k (some (run j t)) hkj
      simp [hk, hstep]

theorem completeAllTasks_eq {α β : Type} (tasks : List α) (run : Nat → α → β)
    (schedule : List Nat)
    (hcov : ∀ i, i < tasks.length → i ∈ schedule) :
    completeAllTasks tasks run schedule = (mapWithIndex run 0 tasks).map some := by
  apply List.ext_getElem?
  intro k
  unfold completeAllTasks
  rw [completeAllTasks_foldl_getElem tasks run schedule _ k (List.length_replicate _ _),
    List.getElem?_map, getElem?_mapWithIndex]
  by_cases hk : k < tasks.length
  · rw [if_pos ⟨hcov k hk, hk⟩]
    cases ht : tasks[k]? <;> simp [Nat.zero_add]
  · rw [if_neg (fun hh => hk hh.2),
      List.getElem?_eq_none (l := tasks) (by omega),
      List.getElem?_eq_none (l := List.replicate tasks.length (none : Option β)) (by simpa using hk)]
    rfl

theorem getSpines_ok (zip : Zip) (license : Option License) (keys : List String)
    (toc : Option (List TocItem)) (dec : String → String → Option String)
    (fetch : Nat → Except JsError XmlDoc) (basePath : String) (opf : OpfDoc)
    (hopf : Explorer.getOpfContent zip = Except.ok (basePath, opf)) :
    Explorer.getSpines zip license keys toc true dec fetch
      = Except.ok (mapWithIndex
          (fun i spine => Explorer.analyzeSpine toc spine (fetch i)) 0
          (Explorer.attachCfiAndProtection (Explorer.getProtectedFiles zip) 0
            (Explorer.resolveValidSpines basePath opf))) := by
  unfold Explorer.getSpines
  rw [hopf]
  rfl

/-- C1: for every valid package (every `<itemref>` `idref` resolves in the
manifest), `getSpines` succeeds and the resulting spine array carries exactly
the `idref`s of the `<spine>` children in package-document order; moreover,
for EVERY completion order (any `schedule` covering all indices) the
concurrently-joined result array (`completeAllTasks`) equals the in-order
spine array — completion order never reorders the result. -/
theorem c1_spine_order_preserved (zip : Zip) (license : Option License)
    (keys : List String) (toc : Option (List TocItem))
    (dec : String → String → Option String)
    (fetch : Nat → Except JsError XmlDoc) (schedule : List Nat)
    (basePath : String) (opf : OpfDoc)
    (hopf : Explorer.getOpfContent zip = Except.ok (basePath, opf))
    (hvalid : ∀ ref ∈ opf.spineItemRefs,
      (opf.manifest.find? (fun item => item.id == ref.idref)).isSome)
    (hsched : ∀ i, i < opf.spineItemRefs.length → i ∈ schedule) :
    ∃ spines,
      Explorer.getSpines zip license keys toc true dec fetch = Except.ok spines
      ∧ spines.map SpineItem.idref = opf.spineItemRefs.map ItemRef.idref
      ∧ completeAllTasks
          (Explorer.attachCfiAndProtection (Explorer.getProtectedFiles zip) 0
            (Explorer.resolveValidSpines basePath opf))
          (fun i spine => Explorer.analyzeSpine toc spine (fetch i)) schedule
        = spines.map some := by
  have hresolve : (Explorer.resolveValidSpines basePath opf).map SpineItem.idref
      = opf.spineItemRefs.map ItemRef.idref :=
    resolveValidSpines_map_idref basePath opf.manifest opf.spineItemRefs hvalid
  have hattach := attachCfiAndProtection_map_idref (Explorer.getProtectedFiles zip) 0
    (Explorer.resolveValidSpines basePath opf)
  have hlen : (Explorer.attachCfiAndProtection (Explorer.getProtectedFiles zip) 0
      (Explorer.resolveValidSpines basePath opf)).length = opf.spineItemRefs.length := by
    have h1 := congrArg List.length (hattach.trans hresolve)
    simpa using h1
  refine ⟨_, getSpines_ok zip license keys toc dec fetch basePath opf hopf, ?_, ?_⟩
  · rw [mapWithIndex_analyzeSpine_map_idref toc fetch 0]
    exact hattach.trans hresolve
  · exact completeAllTasks_eq _ _ schedule (fun i hi => hsched i (hlen ▸ hi))

/-- The concrete C1 archive: container, package document with two resolvable
itemrefs. -/
def c1Opf : OpfDoc :=
  { uniqueIdentifier := none
    metadataEntries := []
    manifest :=
      [{ id := "ch1", href := "chapter1.xhtml", mediaType := some "application/xhtml+xml",
         properties := none },
       { id := "ch2", href := "chapter2.xhtml", mediaType := some "application/xhtml+xml",
         properties := none }]
    spineItemRefs :=
      [{ idref := "ch1", properties := none }, { idref := "ch2", properties := none }] }

/-- The concrete C1 archive. -/
def c1Zip : Zip :=
  [("META-INF/container.xml", ZipEntry.containerXml { rootfileFullPath := some "OEBPS/package.opf" }),
   ("OEBPS/package.opf", ZipEntry.opfXml c1Opf)]

/-- A concrete fetch oracle for the C1 witness. -/
def c1Fetch : Nat → Except JsError XmlDoc := fun _ => Except.ok NodeList.nil

/-- A concrete decryption oracle that never succeeds. -/
def noDec : String → String → Option String := fun _ _ => none

theorem c1_spine_order_preserved_witness :
    (Explorer.getOpfContent c1Zip = Except.ok ("OEBPS/", c1Opf)
      ∧ (∀ ref ∈ c1Opf.spineItemRefs,
          (c1Opf.manifest.find? (fun item => item.id == ref.idref)).isSome)
      ∧ (∀ i, i < c1Opf.spineItemRefs.length → i ∈ [1, 0]))
    ∧ ∃ spines,
        Explorer.getSpines c1Zip none [] none true noDec c1Fetch = Except.ok spines
        ∧ spines.map SpineItem.idref = c1Opf.spineItemRefs.map ItemRef.idref
        ∧ completeAllTasks
            (Explorer.attachCfiAndProtection (Explorer.getProtectedFiles c1Zip) 0
              (Explorer.resolveValidSpines "OEBPS/" c1Opf))
            (fun i spine => Explorer.analyzeSpine none spine (c1Fetch i)) [1, 0]
          = spines.map some :=
  ⟨⟨rfl, by decide, by decide⟩,
    c1_spine_order_preserved c1Zip none [] none noDec c1Fetch [1, 0] "OEBPS/" c1Opf
      rfl (by decide) (by decide)⟩

/-! ## C6: graceful degradation of per-item analysis -/

theorem getMetadata_ok (zip : Zip) (basePath : String) (opf : OpfDoc)
    (hopf : Explorer.getOpfContent zip = Except.ok (basePath, opf)) :
    Explorer.getMetadata zip
      = Except.ok (opf.metadataEntries.foldl
          (fun fixedMetadata entry =>
            let data := extractMetadataEntry entry
            jsObjSet fixedMetadata data.1 data.2) []) := by
  unfold Explorer.getMetadata
  rw [hopf]
  rfl

/-- C6: for every spine item whose per-item document pipeline fails at any
step (the `fetch` oracle yields an error, e.g. an unparseable document),
`analyze()` still completes without throwing, the item is kept in the spine
array at its position (with the i-th `<itemref>`'s `idref`), and its counts
are the zero sentinel `EMPTY_ELEMENTS_COUNT`. -/
theorem c6_graceful_degradation (zip : Zip) (license : Option License)
    (userKeys : List String) (dec : String → String → Option String)
    (fetch : Nat → Except JsError XmlDoc)
    (parseTocFn : String → ZipEntry → Option (List TocItem))
    (basePath : String) (opf : OpfDoc) (i : Nat) (err : JsError)
    (hopf : Explorer.getOpfContent zip = Except.ok (basePath, opf))
    (hvalid : ∀ ref ∈ opf.spineItemRefs,
      (opf.manifest.find? (fun item => item.id == ref.idref)).isSome)
    (hi : i < opf.spineItemRefs.length)
    (hfail : fetch i = Except.error err) :
    ∃ data, Explorer.analyze zip license userKeys dec fetch parseTocFn = Except.ok data
      ∧ data.spines.map SpineItem.idref = opf.spineItemRefs.map ItemRef.idref
      ∧ ∃ s, data.spines[i]? = some s
          ∧ s.counts = some EMPTY_ELEMENTS_COUNT
          ∧ (opf.spineItemRefs[i]?).map ItemRef.idref = some s.idref := by
  have hattach := attachCfiAndProtection_map_idref (Explorer.getProtectedFiles zip) 0
    (Explorer.resolveValidSpines basePath opf)
  have hresolve : (Explorer.resolveValidSpines basePath opf).map SpineItem.idref
      = opf.spineItemRefs.map ItemRef.idref :=
    resolveValidSpines_map_idref basePath opf.manifest opf.spineItemRefs hvalid
  have hidrefs := hattach.trans hresolve
  have hlen : (Explorer.attachCfiAndProtection (Explorer.getProtectedFiles zip) 0
      (Explorer.resolveValidSpines basePath opf)).length = opf.spineItemRefs.length := by
    simpa using congrArg List.length hidrefs
  have hA : ∃ data,
      Explorer.analyze zip license userKeys dec fetch parseTocFn = Except.ok data
      ∧ data.spines = mapWithIndex
          (fun j spine => Explorer.analyzeSpine (Explorer.getToc zip parseTocFn)
            spine (fetch j)) 0
          (Explorer.attachCfiAndProtection (Explorer.getProtectedFiles zip) 0
            (Explorer.resolveValidSpines basePath opf)) := by
    unfold Explorer.analyze
    rw [getMetadata_ok zip basePath opf hopf]
    simp only [Bool.not_false]
    rw [getSpines_ok zip license userKeys (Explorer.getToc zip parseTocFn) dec fetch
      basePath opf hopf]
    exact ⟨_, rfl, rfl⟩
  obtain ⟨data, hdata, hspines⟩ := hA
  refine ⟨data, hdata, ?_, ?_⟩
  · rw [hspines, mapWithIndex_analyzeSpine_map_idref (Explorer.getToc zip parseTocFn) fetch 0]
    exact hidrefs
  · rw [hspines]
    have hti : i < (Explorer.attachCfiAndProtection (Explorer.getProtectedFiles zip) 0
        (Explorer.resolveValidSpines basePath opf)).length := hlen ▸ hi
    refine ⟨Explorer.analyzeSpine (Explorer.getToc zip parseTocFn)
        ((Explorer.attachCfiAndProtection (Explorer.getProtectedFiles zip) 0
          (Explorer.resolveValidSpines basePath opf))[i]) (fetch i), ?_, ?_, ?_⟩
    · rw [getElem?_mapWithIndex, List.getElem?_eq_getElem hti]
      simp
    · rw [hfail]
      rfl
    · have hget := congrArg (fun l => l[i]?) hidrefs
      simp only [List.getElem?_map] at hget
      rw [← hget, List.getElem?_eq_getElem hti, analyzeSpine_idref]
      rfl

/-- An unparseable-document outcome oracle for the C6 witness: every item's
pipeline fails. -/
def c6FailFetch : Nat → Except JsError XmlDoc := fun _ => Except.error JsError.typeError

/-- A table-of-contents parser oracle that yields no TOC. -/
def noToc : String → ZipEntry → Option (List TocItem) := fun _ _ => none

theorem c6_graceful_degradation_witness :
    (Explorer.getOpfContent c1Zip = Except.ok ("OEBPS/", c1Opf)
      ∧ (∀ ref ∈ c1Opf.spineItemRefs,
          (c1Opf.manifest.find? (fun item => item.id == ref.idref)).isSome)
      ∧ 1 < c1Opf.spineItemRefs.length
      ∧ c6FailFetch 1 = Except.error JsError.typeError)
    ∧ ∃ data, Explorer.analyze c1Zip none [] noDec c6FailFetch noToc = Except.ok data
        ∧ data.spines.map SpineItem.idref = c1Opf.spineItemRefs.map ItemRef.idref
        ∧ ∃ s, data.spines[1]? = some s
            ∧ s.counts = some EMPTY_ELEMENTS_COUNT
            ∧ (c1Opf.spineItemRefs[1]?).map ItemRef.idref = some s.idref :=
  ⟨⟨rfl, by decide, by decide, rfl⟩,
    c6_graceful_degradation c1Zip none [] noDec c6FailFetch noToc "OEBPS/" c1Opf 1
      JsError.typeError rfl (by decide) (by decide) rfl⟩

/-! ## C5: missing root-file element -/

/-- The C5 archive: a present, well-formed `container.xml` with NO root-file
element. -/
def c5Zip : Zip :=
  [("META-INF/container.xml", ZipEntry.containerXml { rootfileFullPath := none })]

/-- A fetch oracle for the C5 runs. -/
def c5Fetch : Nat → Except JsError XmlDoc := fun _ => Except.ok NodeList.nil

/-- C5 counterexample: on a container document without a root-file element,
`analyze` fails fatally — but with the JavaScript `TypeError` arising from
using the `undefined` package-document path, NOT with the
`MalformedContainerError` the claim names (nothing in the sources constructs
that error). -/
theorem c5_counterexample :
    Explorer.analyze c5Zip none [] noDec c5Fetch noToc = Except.error JsError.typeError
      ∧ JsError.typeError ≠ JsError.malformedContainerError :=
  ⟨rfl, by decide⟩

/-- C5 (amended): whenever `META-INF/container.xml` is present but carries no
root-file element, package-document resolution fails with the JavaScript
`TypeError` (`getBasePath` applied to the `undefined` root-file path), and
that failure is fatal: the whole `analyze()` invocation aborts with it rather
than returning a degraded result. -/
theorem c5_missing_rootfile_fatal (zip : Zip) (license : Option License)
    (userKeys : List String) (dec : String → String → Option String)
    (fetch : Nat → Except JsError XmlDoc)
    (parseTocFn : String → ZipEntry → Option (List TocItem)) (entry : ZipEntry)
    (hc : getFileE zip "META-INF/container.xml" = Except.ok entry)
    (hr : (parseAsContainer entry).rootfileFullPath = none) :
    Explorer.getOpfContent zip = Except.error JsError.typeError
      ∧ Explorer.analyze zip license userKeys dec fetch parseTocFn
          = Except.error JsError.typeError := by
  have hopf : Explorer.getOpfContent zip = Except.error JsError.typeError := by
    unfold Explorer.getOpfContent
    rw [hc]
    show (match getOpfFilePath (parseAsContainer entry) with
      | none => Except.error JsError.typeError
      | some opfFilePath =>
        getFileE zip opfFilePath >>= fun opfEntry =>
          Except.ok (getBasePath opfFilePath, parseAsOpf opfEntry)) = _
    rw [getOpfFilePath, hr]
  refine ⟨hopf, ?_⟩
  unfold Explorer.analyze
  have hmeta : Explorer.getMetadata zip = Except.error JsError.typeError := by
    unfold Explorer.getMetadata
    rw [hopf]
    rfl
  rw [hmeta]
  rfl

theorem c5_missing_rootfile_fatal_witness :
    (getFileE c5Zip "META-INF/container.xml"
        = Except.ok (ZipEntry.containerXml { rootfileFullPath := none })
      ∧ (parseAsContainer (ZipEntry.containerXml { rootfileFullPath := none })).rootfileFullPath
          = none)
    ∧ (Explorer.getOpfContent c5Zip = Except.error JsError.typeError
      ∧ Explorer.analyze c5Zip none ["key"] noDec c5Fetch noToc
          = Except.error JsError.typeError) :=
  ⟨⟨rfl, rfl⟩,
    c5_missing_rootfile_fatal c5Zip none ["key"] noDec c5Fetch noToc
      (ZipEntry.containerXml { rootfileFullPath := none }) rfl rfl⟩

/-! ## C9: decipherWholeArchive output archive -/

theorem decipherEntry_path (zip : Zip)
    (protectedFileMap : List (String × ProtectionDescriptor))
    (license : License) (userKey : String)
    (decipherFile : ZipEntry → ProtectionDescriptor → License → String →
      Except JsError (List Nat))
    (filePath : String) (entry : ZipEntry) (x : String × ExplorerJs.DecipheredEntry)
    (h : ExplorerJs.decipherEntry zip protectedFileMap license userKey decipherFile
      filePath entry = some x) :
    x.1 = filePath := by
  unfold ExplorerJs.decipherEntry at h
  split at h
  · split at h
    · split at h
      · split at h
        · cases h; rfl
        · cases h
      · cases h
    · cases h; rfl
  · cases h; rfl

theorem addToZip_some (x : Option (String × ExplorerJs.DecipheredEntry))
    (y : String × ExplorerJs.DecipheredEntry)
    (h : ExplorerJs.addToZip x = some y) :
    x = some y ∧ y.1 ≠ "META-INF/encryption.xml" := by
  unfold ExplorerJs.addToZip at h
  split at h
  · cases h
  · rename_i path data
    split at h
    · cases h
    · cases h
      rename_i hne
      exact ⟨rfl, hne⟩

/-- C9: with a supplied license, `decipherWholeArchive`
(`ExplorerJs.decipher`) succeeds with an archive that (i) never contains
`META-INF/encryption.xml`; (ii) contains every LCP-protected entry of the
input rewritten to its deciphered content; (iii) drops only the file itself
on a per-file decipher failure; (iv) contains every other entry of the input
verbatim (byte-for-byte); and (v) invents no entries. -/
theorem c9_decipher_whole_archive (zip : Zip) (license : License)
    (userKey : String)
    (decipherFile : ZipEntry → ProtectionDescriptor → License → String →
      Except JsError (List Nat))
    (hnd : (zip.map Prod.fst).Nodup)
    (hnorm : ∀ pe ∈ zip, normalizePath pe.1 = pe.1) :
    ∃ out, ExplorerJs.decipher zip (some license) userKey decipherFile = Except.ok out
    ∧ (∀ d, ("META-INF/encryption.xml", d) ∉ out)
    ∧ (∀ p e protection d, (p, e) ∈ zip → p ≠ "META-INF/encryption.xml" →
        jsObjGet (ExplorerJs.getProtectedFiles zip) p = some protection →
        protection.type = some LCP_PROTECTION_TYPE →
        decipherFile e protection license userKey = Except.ok d →
        (p, ExplorerJs.DecipheredEntry.deciphered d) ∈ out)
    ∧ (∀ p e protection err, (p, e) ∈ zip →
        jsObjGet (ExplorerJs.getProtectedFiles zip) p = some protection →
        protection.type = some LCP_PROTECTION_TYPE →
        decipherFile e protection license userKey = Except.error err →
        ∀ d, (p, d) ∉ out)
    ∧ (∀ p e, (p, e) ∈ zip → p ≠ "META-INF/encryption.xml" →
        (jsObjGet (ExplorerJs.getProtectedFiles zip) p = none
          ∨ ∃ protection,
              jsObjGet (ExplorerJs.getProtectedFiles zip) p = some protection
              ∧ protection.type ≠ some LCP_PROTECTION_TYPE) →
        (p, ExplorerJs.DecipheredEntry.original e) ∈ out)
    ∧ (∀ p d, (p, d) ∈ out → ∃ e, (p, e) ∈ zip) := by
  have hrun : ExplorerJs.decipher zip (some license) userKey decipherFile
      = Except.ok ((zip.map (fun pe => ExplorerJs.decipherEntry zip
          (ExplorerJs.getProtectedFiles zip) license userKey decipherFile
          pe.1 pe.2)).filterMap ExplorerJs.addToZip) := rfl
  refine ⟨_, hrun, ?_⟩
  have hgetE : ∀ p e, (p, e) ∈ zip → getFileE zip p = Except.ok e := by
    intro p e hmem
    have h1 : normalizePath p = p := hnorm (p, e) hmem
    unfold getFileE
    rw [h1, jsObjGet_of_mem_nodup zip hnd p e hmem]
  have hsrc : ∀ y, y ∈ (zip.map (fun pe => ExplorerJs.decipherEntry zip
        (ExplorerJs.getProtectedFiles zip) license userKey decipherFile
        pe.1 pe.2)).filterMap ExplorerJs.addToZip →
      ∃ e, (y.1, e) ∈ zip
        ∧ ExplorerJs.decipherEntry zip (ExplorerJs.getProtectedFiles zip)
            license userKey decipherFile y.1 e = some y
        ∧ y.1 ≠ "META-INF/encryption.xml" := by
    intro y hy
    obtain ⟨x, hx, hxy⟩ := List.mem_filterMap.mp hy
    obtain ⟨hxs, hne⟩ := addToZip_some x y hxy
    obtain ⟨pe, hpe, hfx⟩ := List.mem_map.mp hx
    subst hxs
    have hpath := decipherEntry_path zip (ExplorerJs.getProtectedFiles zip)
      license userKey decipherFile pe.1 pe.2 y hfx
    refine ⟨pe.2, ?_, ?_, hne⟩
    · rw [hpath]; exact hpe
    · rw [hpath]; exact hfx
  have hmem_out : ∀ p e y, (p, e) ∈ zip →
      ExplorerJs.decipherEntry zip (ExplorerJs.getProtectedFiles zip)
        license userKey decipherFile p e = some y →
      y.1 ≠ "META-INF/encryption.xml" →
      y ∈ (zip.map (fun pe => ExplorerJs.decipherEntry zip
        (ExplorerJs.getProtectedFiles zip) license userKey decipherFile
        pe.1 pe.2)).filterMap ExplorerJs.addToZip := by
    intro p e y hmem hf hne
    refine List.mem_filterMap.mpr ⟨some y, ?_, ?_⟩
    · exact List.mem_map.mpr ⟨(p, e), hmem, by simpa using hf⟩
    · unfold ExplorerJs.addToZip
      obtain ⟨yp, yd⟩ := y
      simpa using hne
  have huniq : ∀ p e e', (p, e) ∈ zip → (p, e') ∈ zip → e = e' := by
    intro p e e' h1 h2
    have h3 := (jsObjGet_of_mem_nodup zip hnd p e h1).symm.trans
      (jsObjGet_of_mem_nodup zip hnd p e' h2)
    exact Option.some.inj h3
  refine ⟨?_, ?_, ?_, ?_, ?_⟩
  · intro d hd
    obtain ⟨e, _, _, hne⟩ := hsrc ("META-INF/encryption.xml", d) hd
    exact hne rfl
  · intro p e protection d hmem hne hprot htype hdec
    refine hmem_out p e (p, ExplorerJs.DecipheredEntry.deciphered d) hmem ?_ hne
    simp [ExplorerJs.decipherEntry, hprot, htype, hgetE p e hmem, hdec]
  · intro p e protection err hmem hprot htype hdec d hd
    obtain ⟨e', hmem', hf', _⟩ := hsrc (p, d) hd
    have he : e' = e := huniq p e' e hmem' hmem
    subst he
    simp [ExplorerJs.decipherEntry, hprot, htype, hgetE p e' hmem', hdec] at hf'
  · intro p e hmem hne hcase
    refine hmem_out p e (p, ExplorerJs.DecipheredEntry.original e) hmem ?_ hne
    rcases hcase with hnone | ⟨protection, hprot, htype⟩
    · simp [ExplorerJs.decipherEntry, hnone]
    · simp [ExplorerJs.decipherEntry, hprot, htype]
  · intro p d hd
    obtain ⟨e, hmem, _, _⟩ := hsrc (p, d) hd
    exact ⟨e, hmem⟩

/-- The C9 encryption-manifest entry: the chapter is LCP-protected. -/
def c9Enc : EncryptedData :=
  { uri := "OEBPS/chapter1.xhtml"
    algorithm := some "http://www.w3.org/2001/04/xmlenc#aes256-cbc"
    compressionMethodAttr := none
    originalLengthAttr := none
    retrievalMethodType := some "http://readium.org/2014/01/lcp#EncryptedContentKey"
    resourceXmlns := none }

/-- The concrete C9 archive: manifest, one protected chapter, one plain file. -/
def c9Zip : Zip :=
  [("META-INF/encryption.xml", ZipEntry.encryptionXml [c9Enc]),
   ("OEBPS/chapter1.xhtml", ZipEntry.raw [1, 2, 3]),
   ("mimetype", ZipEntry.raw [10])]

/-- The concrete C9 license. -/
def c9License : License := { id := "lic-1", keyCheck := "check" }

/-- The concrete decipher oracle for the C9 witness. -/
def c9DecipherFile : ZipEntry → ProtectionDescriptor → License → String →
    Except JsError (List Nat) :=
  fun _ _ _ _ => Except.ok [42]

theorem c9_decipher_whole_archive_witness :
    ((c9Zip.map Prod.fst).Nodup ∧ ∀ pe ∈ c9Zip, normalizePath pe.1 = pe.1)
    ∧ ∃ out, ExplorerJs.decipher c9Zip (some c9License) "userkey" c9DecipherFile
          = Except.ok out
      ∧ (∀ d, ("META-INF/encryption.xml", d) ∉ out)
      ∧ (∀ p e protection d, (p, e) ∈ c9Zip → p ≠ "META-INF/encryption.xml" →
          jsObjGet (ExplorerJs.getProtectedFiles c9Zip) p = some protection →
          protection.type = some LCP_PROTECTION_TYPE →
          c9DecipherFile e protection c9License "userkey" = Except.ok d →
          (p, ExplorerJs.DecipheredEntry.deciphered d) ∈ out)
      ∧ (∀ p e protection err, (p, e) ∈ c9Zip →
          jsObjGet (ExplorerJs.getProtectedFiles c9Zip) p = some protection →
          protection.type = some LCP_PROTECTION_TYPE →
          c9DecipherFile e protection c9License "userkey" = Except.error err →
          ∀ d, (p, d) ∉ out)
      ∧ (∀ p e, (p, e) ∈ c9Zip → p ≠ "META-INF/encryption.xml" →
          (jsObjGet (ExplorerJs.getProtectedFiles c9Zip) p = none
            ∨ ∃ protection,
                jsObjGet (ExplorerJs.getProtectedFiles c9Zip) p = some protection
                ∧ protection.type ≠ some LCP_PROTECTION_TYPE) →
          (p, ExplorerJs.DecipheredEntry.original e) ∈ out)
      ∧ (∀ p d, (p, d) ∈ out → ∃ e, (p, e) ∈ c9Zip) :=
  ⟨⟨by decide, by decide⟩,
    c9_decipher_whole_archive c9Zip c9License "userkey" c9DecipherFile
      (by decide) (by decide)⟩

end EpubToolkit
